import Mathlib

/-!
# ClipperLedger — formal model of `src/streamlit_app.py`

A shallow embedding of the Ledger Store & Normalization Engine of the
barber-shop ledger application.  Python strings are modelled as lists of
code points (`PStr`); ASCII case mapping mirrors `str.lower`, `str.upper`
and `str.title`.  Tables (`pandas.DataFrame`) are modelled as a list of
present columns over the canonical column universe together with a list
of rows, a row being a total function from columns to cell values.
Parsing and rendering primitives of pandas (`pd.to_numeric` /
`pd.to_datetime` on strings, `str()` of numbers and timestamps) are
abstracted as parameters (`PandasOps`); everything proved below holds for
every choice of those primitives.
-/

namespace ClipperLedger

/-- Python strings, modelled as lists of Unicode code points. -/
abbrev PStr := List Nat

/-- Embed a Lean string literal as a `PStr` (used for concrete values). -/
def pstr (s : String) : PStr := s.data.map Char.toNat

/-- ASCII uppercase letter (code points 65–90). -/
def isUpperCP (n : Nat) : Bool := 65 ≤ n && n ≤ 90

/-- ASCII lowercase letter (code points 97–122). -/
def isLowerCP (n : Nat) : Bool := 97 ≤ n && n ≤ 122

/-- Letter, as used by `str.title` to delimit words. -/
def isAlphaCP (n : Nat) : Bool := isUpperCP n || isLowerCP n

/-- Whitespace stripped by `str.strip` (space, tab, newline, carriage return). -/
def isSpaceCP (n : Nat) : Bool := n == 32 || n == 9 || n == 10 || n == 13

/-- `str.lower` on one code point (ASCII). -/
def toLowerCP (n : Nat) : Nat := if isUpperCP n then n + 32 else n

/-- `str.upper` / title-casing on one code point (ASCII). -/
def toUpperCP (n : Nat) : Nat := if isLowerCP n then n - 32 else n

/-- `str.lower`. -/
def lowerP (s : PStr) : PStr := s.map toLowerCP

/-- `str.strip`: drop leading and trailing whitespace. -/
def stripP (s : PStr) : PStr :=
  (((s.dropWhile isSpaceCP).reverse).dropWhile isSpaceCP).reverse

/-- Worker for `str.title`: the flag records whether the previous
character was a letter (mid-word position). -/
def titleMap (prev : Bool) : PStr → PStr
  | [] => []
  | c :: cs =>
    (if isAlphaCP c then (if prev then toLowerCP c else toUpperCP c) else c)
      :: titleMap (isAlphaCP c) cs

/-- `str.title`: uppercase the first letter of each word, lowercase the rest. -/
def titleP (s : PStr) : PStr := titleMap false s

/-! ### Code-point lemmas -/

theorem isAlphaCP_toLowerCP (n : Nat) : isAlphaCP (toLowerCP n) = isAlphaCP n := by
  simp only [isAlphaCP, toLowerCP, isUpperCP, isLowerCP]
  split <;> rename_i h <;> simp_all <;> omega

theorem isAlphaCP_toUpperCP (n : Nat) : isAlphaCP (toUpperCP n) = isAlphaCP n := by
  simp only [isAlphaCP, toUpperCP, isUpperCP, isLowerCP]
  split <;> rename_i h <;> simp_all <;> omega

theorem toLowerCP_toLowerCP (n : Nat) : toLowerCP (toLowerCP n) = toLowerCP n := by
  simp only [toLowerCP, isUpperCP]
  split <;> rename_i h <;> [skip; simp_all] <;> simp_all <;> omega

theorem toUpperCP_toUpperCP (n : Nat) : toUpperCP (toUpperCP n) = toUpperCP n := by
  simp only [toUpperCP, isLowerCP]
  split <;> rename_i h <;> [skip; simp_all] <;> simp_all <;> omega

theorem isSpaceCP_toLowerCP (n : Nat) : isSpaceCP (toLowerCP n) = isSpaceCP n := by
  unfold toLowerCP
  split
  · rename_i h
    rw [Bool.eq_iff_iff]
    simp only [isUpperCP, Bool.and_eq_true, decide_eq_true_eq] at h
    simp only [isSpaceCP, Bool.or_eq_true, beq_iff_eq]
    omega
  · rfl

theorem isSpaceCP_toUpperCP (n : Nat) : isSpaceCP (toUpperCP n) = isSpaceCP n := by
  unfold toUpperCP
  split
  · rename_i h
    rw [Bool.eq_iff_iff]
    simp only [isLowerCP, Bool.and_eq_true, decide_eq_true_eq] at h
    simp only [isSpaceCP, Bool.or_eq_true, beq_iff_eq]
    omega
  · rfl

/-! ### `title` and `strip` lemmas -/

theorem titleMap_titleMap (b : Bool) (l : PStr) :
    titleMap b (titleMap b l) = titleMap b l := by
  induction l generalizing b with
  | nil => rfl
  | cons c cs ih =>
    by_cases hc : isAlphaCP c
    · cases b with
      | false => simp [titleMap, hc, isAlphaCP_toUpperCP, toUpperCP_toUpperCP, ih]
      | true => simp [titleMap, hc, isAlphaCP_toLowerCP, toLowerCP_toLowerCP, ih]
    · simp [titleMap, hc, ih]

theorem titleP_titleP (s : PStr) : titleP (titleP s) = titleP s :=
  titleMap_titleMap false s

/-- `title` preserves the whitespace pattern of the string. -/
theorem map_isSpaceCP_titleMap (b : Bool) (l : PStr) :
    (titleMap b l).map isSpaceCP = l.map isSpaceCP := by
  induction l generalizing b with
  | nil => rfl
  | cons c cs ih =>
    simp only [titleMap, List.map_cons, ih]
    congr 1
    by_cases hc : isAlphaCP c
    · cases b <;> simp [hc, isSpaceCP_toLowerCP, isSpaceCP_toUpperCP]
    · simp [hc]

/-- `dropWhile` leaves a list unchanged iff its first element (if any)
fails the predicate, phrased through the image under the predicate. -/
theorem dropWhile_eq_self_iff_head (p : Nat → Bool) (l : PStr) :
    l.dropWhile p = l ↔ (l.map p).headI ≠ true ∨ l = [] := by
  cases l with
  | nil => simp [List.dropWhile]
  | cons c cs =>
    simp only [List.dropWhile_cons, List.map_cons, List.headI, ne_eq,
      List.cons_ne_nil, or_false]
    constructor
    · intro h hpc
      rw [if_pos hpc] at h
      have hlen := (List.dropWhile_sublist (l := cs) p).length_le
      rw [h] at hlen
      simp only [List.length_cons] at hlen
      omega
    · intro h
      have : p c = false := by
        cases hpc : p c
        · rfl
        · exact absurd hpc h
      simp [this]

/-- A string is *strip-normal* when stripping does not change it,
captured by its two ends. -/
def StripNormal (l : PStr) : Prop :=
  l.dropWhile isSpaceCP = l ∧ l.reverse.dropWhile isSpaceCP = l.reverse

theorem stripP_eq_self_of_stripNormal {l : PStr} (h : StripNormal l) :
    stripP l = l := by
  unfold stripP
  rw [h.1, h.2, List.reverse_reverse]

theorem stripNormal_of_map_isSpaceCP_eq {u v : PStr}
    (hu : StripNormal u) (huv : v.map isSpaceCP = u.map isSpaceCP) :
    StripNormal v := by
  obtain ⟨h1, h2⟩ := hu
  rw [dropWhile_eq_self_iff_head] at h1 h2
  constructor
  · rw [dropWhile_eq_self_iff_head, huv]
    rcases h1 with h1 | h1
    · exact Or.inl h1
    · subst h1
      simp only [List.map_nil] at huv
      right
      exact List.map_eq_nil.mp huv
  · rw [dropWhile_eq_self_iff_head, List.map_reverse, huv, ← List.map_reverse]
    rcases h2 with h2 | h2
    · exact Or.inl h2
    · right
      have hu0 : u = [] := by simpa using h2
      subst hu0
      simp only [List.map_nil] at huv
      simp [List.map_eq_nil.mp huv]

theorem dropWhile_dropWhile (p : Nat → Bool) (l : PStr) :
    (l.dropWhile p).dropWhile p = l.dropWhile p := by
  induction l with
  | nil => rfl
  | cons c cs ih =>
    by_cases h : p c
    · simp [List.dropWhile_cons, h, ih]
    · simp [List.dropWhile_cons, h]

theorem stripNormal_stripP (s : PStr) : StripNormal (stripP s) := by
  unfold stripP
  set a := s.dropWhile isSpaceCP with ha
  constructor
  · rw [dropWhile_eq_self_iff_head]
    rcases hb : (a.reverse.dropWhile isSpaceCP).reverse with _ | ⟨c, cs⟩
    · right; rfl
    · left
      -- the head of the re-reversed suffix-trimmed list is the head of `a`
      have hsub : a.reverse.dropWhile isSpaceCP <:+ a.reverse :=
        List.dropWhile_suffix _
      obtain ⟨t, ht⟩ := hsub
      have ha2 : a = (c :: cs) ++ t.reverse := by
        have := congrArg List.reverse ht
        simpa [hb] using this.symm
      have hhead : a.headI = c := by rw [ha2]; rfl
      have hself : a.dropWhile isSpaceCP = a := dropWhile_dropWhile _ s
      rw [dropWhile_eq_self_iff_head] at hself
      rcases hself with hs1 | hs1
      · simp only [List.map_cons, List.headI, ne_eq]
        intro hcontra
        apply hs1
        rw [ha2]
        simpa using hcontra
      · rw [hs1] at ha2
        exact absurd ha2.symm (by simp)
  · rw [List.reverse_reverse]
    exact dropWhile_dropWhile _ _

theorem stripP_titleP_stripP (s : PStr) :
    stripP (titleP (stripP s)) = titleP (stripP s) := by
  apply stripP_eq_self_of_stripNormal
  exact stripNormal_of_map_isSpaceCP_eq (stripNormal_stripP s)
    (map_isSpaceCP_titleMap false (stripP s))

/-! ### The data model

Canonical columns (`REQUIRED_COLS` in the source).  Columns outside the
canonical set are dropped by every code path modelled here, so the column
universe is the canonical set itself. -/

inductive Col
  | ID | Date | Time | Barber_Name | Customer_Name
  | Service_Type | Cost | Role | Duration_Min
deriving DecidableEq, Fintype

/-- Cell values: strings, numbers (Python numbers as rationals),
timestamps (as rational day counts), and two null flavours that pandas
renders differently — `na` for a float `NaN` (an empty CSV field, a
failed coercion; `NaT` is conflated here, as it never reaches a string
rendering in the modelled paths) and `NA` for `pd.NA` (the marker the
code itself uses when synthesizing a missing column). -/
inductive Val
  | na
  | NA
  | str (s : PStr)
  | num (q : ℚ)
  | date (d : ℚ)
deriving DecidableEq

/-- `pd.isna` on one cell: true for every null flavour. -/
def isna (v : Val) : Bool := v == Val.na || v == Val.NA

/-- A row assigns a cell value to every canonical column. -/
abbrev Row := Col → Val

/-- A table: the columns present in the frame, and its rows.  A row's
value at a column not in `cols` is meaningless junk unless an operation
explicitly fills it. -/
structure DF where
  cols : List Col
  rows : List Row
deriving DecidableEq

/-- `REQUIRED_COLS` of the source, in order. -/
def REQUIRED_COLS : List Col :=
  [.ID, .Date, .Time, .Barber_Name, .Customer_Name,
   .Service_Type, .Cost, .Role, .Duration_Min]

theorem mem_REQUIRED_COLS (c : Col) : c ∈ REQUIRED_COLS := by
  cases c <;> simp [REQUIRED_COLS]

/-- Overwrite one cell of a row. -/
def setCell (r : Row) (c : Col) (v : Val) : Row :=
  fun c' => if c' = c then v else r c'

theorem setCell_self (r : Row) (c : Col) : setCell r c (r c) = r := by
  funext c'
  unfold setCell
  split <;> simp_all

theorem setCell_same (r : Row) (c : Col) (v : Val) : setCell r c v c = v := by
  simp [setCell]

theorem setCell_other {c c' : Col} (h : c' ≠ c) (r : Row) (v : Val) :
    setCell r c v c' = r c' := by
  simp [setCell, h]

/-- `df[c] = v` with a scalar: overwrite the column, appending it to the
frame when absent (pandas column assignment). -/
def setColScalar (df : DF) (c : Col) (v : Val) : DF :=
  { cols := if c ∈ df.cols then df.cols else df.cols ++ [c],
    rows := df.rows.map (fun r => setCell r c v) }

/-- `for col in REQUIRED_COLS: if col not in df.columns: df[col] = pd.NA`
(the reconciliation loop of `load_data`, `save_entry_to_disk` and
`normalize_ledger`). -/
def addMissing (df : DF) : DF :=
  REQUIRED_COLS.foldl
    (fun d c => if c ∈ d.cols then d else setColScalar d c .NA) df

/-- `df[REQUIRED_COLS]`: select the canonical columns in canonical order
(always applied after `addMissing`, so all of them are present). -/
def reindexRequired (df : DF) : DF := ⟨REQUIRED_COLS, df.rows⟩

/-- The row function produced by the reconciliation loop: values of
originally-present columns survive, absent ones become null. -/
def fillFn (cols0 : List Col) (L : List Col) (r : Row) : Row :=
  fun c => if c ∈ cols0 then r c else if c ∈ L then .NA else r c

/-- Generalisation of `addMissing` over the iteration list. -/
def addMissingAux (L : List Col) (df : DF) : DF :=
  L.foldl (fun d c => if c ∈ d.cols then d else setColScalar d c .NA) df

theorem addMissing_eq_aux (df : DF) : addMissing df = addMissingAux REQUIRED_COLS df := rfl

theorem addMissingAux_spec (L : List Col) (hL : L.Nodup) (df : DF) :
    addMissingAux L df =
      ⟨df.cols ++ L.filter (fun c => !(c ∈ df.cols : Bool)),
       df.rows.map (fillFn df.cols L)⟩ := by
  induction L generalizing df with
  | nil =>
    simp only [addMissingAux, List.foldl_nil, List.filter_nil, List.append_nil]
    cases df with
    | mk cols rows =>
      simp only [DF.mk.injEq, true_and]
      conv_lhs => rw [← List.map_id rows]
      apply List.map_congr_left
      intro r _
      funext c
      simp [fillFn]
  | cons c L' ih =>
    simp only [addMissingAux, List.foldl_cons]
    by_cases hc : c ∈ df.cols
    · rw [if_pos hc]
      rw [show (List.foldl (fun d c => if c ∈ d.cols then d else setColScalar d c .NA) df L') = addMissingAux L' df from rfl]
      rw [ih (List.nodup_cons.mp hL).2 df]
      simp only [DF.mk.injEq]
      constructor
      · congr 1
        rw [List.filter_cons, if_neg (by simp [hc])]
      · apply List.map_congr_left
        intro r _
        funext x
        by_cases hx : x ∈ df.cols
        · simp [fillFn, hx]
        · have hxc : x ≠ c := fun h => hx (h ▸ hc)
          simp [fillFn, hx, hxc]
    · rw [if_neg hc]
      have hL' := (List.nodup_cons.mp hL).2
      have hcL' : c ∉ L' := (List.nodup_cons.mp hL).1
      rw [show (List.foldl (fun d c => if c ∈ d.cols then d else setColScalar d c .NA) (setColScalar df c .NA) L') = addMissingAux L' (setColScalar df c .NA) from rfl]
      rw [ih hL' (setColScalar df c .NA)]
      simp only [setColScalar, if_neg hc]
      simp only [DF.mk.injEq]
      constructor
      · rw [List.append_assoc]
        congr 1
        rw [List.filter_cons, if_pos (by simp [hc]), List.singleton_append]
        congr 1
        apply List.filter_congr
        intro x hx
        have hxc : x ≠ c := fun h => hcL' (h ▸ hx)
        simp [hxc]
      · rw [List.map_map]
        apply List.map_congr_left
        intro r _
        funext x
        by_cases hx : x ∈ df.cols
        · have hxc : x ≠ c := fun h => hc (h ▸ hx)
          simp [fillFn, Function.comp, hx, hxc, setCell_other hxc]
        · by_cases hxc : x = c
          · subst hxc
            simp [fillFn, Function.comp, hx, setCell_same]
          · simp [fillFn, Function.comp, hx, hxc, setCell_other hxc]

theorem REQUIRED_COLS_nodup : REQUIRED_COLS.Nodup := by decide

theorem addMissing_spec (df : DF) :
    addMissing df =
      ⟨df.cols ++ REQUIRED_COLS.filter (fun c => !(c ∈ df.cols : Bool)),
       df.rows.map (fillFn df.cols REQUIRED_COLS)⟩ :=
  addMissingAux_spec REQUIRED_COLS REQUIRED_COLS_nodup df

theorem fillFn_required (r : Row) : fillFn REQUIRED_COLS REQUIRED_COLS r = r := by
  funext c
  simp [fillFn, mem_REQUIRED_COLS c]

theorem addMissing_of_required (df : DF) (h : df.cols = REQUIRED_COLS) :
    addMissing df = df := by
  rw [addMissing_spec, h]
  cases df with
  | mk cols rows =>
    simp only at h
    subst h
    simp only [DF.mk.injEq]
    constructor
    · have : REQUIRED_COLS.filter (fun c => !(c ∈ REQUIRED_COLS : Bool)) = [] := by decide
      simp [this]
    · conv_rhs => rw [← List.map_id rows]
      apply List.map_congr_left
      intro r _
      rw [fillFn_required]
      rfl

/-! ### pandas parsing/rendering primitives

`pd.to_numeric` / `pd.to_datetime` on strings and `str()` of numbers and
timestamps are locale- and format-dependent.  They are abstracted as
parameters; every theorem below holds for arbitrary instantiations. -/

structure PandasOps where
  parseNum : PStr → Option ℚ
  parseDate : PStr → Option ℚ
  showNum : ℚ → PStr
  showDate : ℚ → PStr

/-- A concrete instantiation of the abstract parsing/rendering
primitives, used to evaluate the theorems on concrete tables: nothing
parses, numbers and timestamps render as the empty string. -/
def trivialOps : PandasOps :=
  ⟨fun _ => none, fun _ => none, fun _ => [], fun _ => []⟩

/-- `str(v)` / `.astype(str)` on one cell.  pandas renders a float `NaN`
cell as the literal string `"nan"` and a `pd.NA` cell as the literal
string `"<NA>"`. -/
def valToStr (P : PandasOps) : Val → PStr
  | .na => pstr "nan"
  | .NA => pstr "<NA>"
  | .str s => s
  | .num q => P.showNum q
  | .date d => P.showDate d

/-- `pd.to_numeric(v, errors="coerce")` on one cell: numbers pass
through, strings parse or become null, timestamps expose their numeric
representation, null stays null. -/
def toNumeric (P : PandasOps) : Val → Val
  | .na => .na
  | .NA => .na
  | .str s => match P.parseNum s with
    | some q => .num q
    | none => .na
  | .num q => .num q
  | .date d => .num d

/-- `pd.to_datetime(v, errors="coerce")` on one cell: timestamps pass
through, strings parse or become null (NaT), numbers are epoch offsets,
null stays null. -/
def toDatetime (P : PandasOps) : Val → Val
  | .na => .na
  | .NA => .na
  | .str s => match P.parseDate s with
    | some d => .date d
    | none => .na
  | .num q => .date q
  | .date d => .date d

/-- `.astype(str)` on one cell. -/
def astypeStr (P : PandasOps) (v : Val) : Val := .str (valToStr P v)

/-- `.fillna(w)` on one cell: pandas fills every null flavour. -/
def fillna (w : Val) : Val → Val
  | .na => w
  | .NA => w
  | v => v

/-- Truncation toward zero, as in a C cast of a float to an integer. -/
def truncQ (q : ℚ) : ℤ := q.num / (q.den : ℤ)

/-- `.astype(int)` on a numeric cell. -/
def astypeInt : Val → Val
  | .num q => .num ((truncQ q : ℤ) : ℚ)
  | v => v

/-- `df.empty`: no rows or no columns. -/
def isEmptyDF (df : DF) : Bool := df.rows.isEmpty || df.cols.isEmpty

/-- `df[c] = f(df[c])`: transform one (present) column. -/
def mapCol (df : DF) (c : Col) (f : Val → Val) : DF :=
  ⟨df.cols, df.rows.map (fun r => setCell r c (f (r c)))⟩

/-- Row predicate of `df.dropna(subset=["Date", "Cost"])`. -/
def keepRow (r : Row) : Bool :=
  !(isna (r .Date)) && !(isna (r .Cost))

/-- `df.dropna(subset=["Date", "Cost"])`. -/
def dropnaDateCost (df : DF) : DF := ⟨df.cols, df.rows.filter keepRow⟩

/-- Title-casing of a name column entry:
`.astype(str).str.strip().str.title()`. -/
def cleanName (P : PandasOps) (v : Val) : Val :=
  .str (titleP (stripP (valToStr P v)))

/-- `normalize_ledger` (source lines 165–185), column for column in
source order. -/
def normalize_ledger (P : PandasOps) (df_in : DF) : DF :=
  if isEmptyDF df_in then ⟨REQUIRED_COLS, []⟩
  else
    let df := reindexRequired (addMissing df_in)
    let df := mapCol df .Cost (toNumeric P)
    let df := mapCol df .Date (toDatetime P)
    let df := mapCol df .Time (astypeStr P)
    let df := mapCol df .Role (fun v => astypeStr P (fillna (.str (pstr "Employee")) v))
    let df := mapCol df .Service_Type (fun v => astypeStr P (fillna (.str (pstr "Haircut")) v))
    let df := dropnaDateCost df
    let df := mapCol df .Barber_Name (cleanName P)
    let df := mapCol df .Customer_Name (cleanName P)
    let df := mapCol df .Duration_Min (fun v => astypeInt (fillna (.num 30) (toNumeric P v)))
    df

/-! ### Actors and the visibility filter -/

/-- The session identity: `st.session_state.current_role` and
`st.session_state.current_display_name`. -/
structure Actor where
  role : PStr
  display_name : PStr

/-- `get_clean_ledger` (source lines 188–189). -/
def get_clean_ledger (P : PandasOps) (ledger : DF) : DF :=
  normalize_ledger P ledger

/-- `get_user_ledger` (source lines 192–199): clean ledger, owner sees
everything, barbers only rows whose clean `Barber_Name` lowercases to
their display name lowercased. -/
def get_user_ledger (P : PandasOps) (ledger : DF) (a : Actor) : DF :=
  let df := get_clean_ledger P ledger
  if a.role = pstr "owner" then df
  else ⟨df.cols, df.rows.filter (fun r =>
    match r .Barber_Name with
    | .str s => decide (lowerP s = lowerP a.display_name)
    | _ => false)⟩

/-- `get_user_ledger_raw` (source lines 202–209): raw session ledger,
with `astype(str).str.strip().str.lower()` on the barber column. -/
def get_user_ledger_raw (P : PandasOps) (ledger : DF) (a : Actor) : DF :=
  if a.role = pstr "owner" then ledger
  else ⟨ledger.cols, ledger.rows.filter (fun r =>
    decide (lowerP (stripP (valToStr P (r .Barber_Name))) = lowerP a.display_name))⟩

/-- Modelled from the spec: `visible_rows(table, actor)` — if the actor
is an owner the table is returned unchanged, otherwise exactly the rows
whose `barber_name`, whitespace-trimmed and case-folded, equals the
actor's display name (case-insensitively). -/
def visible_rows (P : PandasOps) (table : DF) (a : Actor) : DF :=
  if a.role = pstr "owner" then table
  else ⟨table.cols, table.rows.filter (fun r =>
    decide (lowerP (stripP (valToStr P (r .Barber_Name))) = lowerP a.display_name))⟩

/-! ### Validation engine -/

/-- Soft warnings of `validate_entry`; the formatted message text is
abstracted to its content. -/
inductive Warn
  | high (cost : ℚ)
  | low (cost : ℚ)
  | future
deriving DecidableEq

/-- `validate_entry` (source lines 218–237); dates are day numbers,
`today` is `datetime.now().date()`. -/
def validate_entry (barber customer : PStr) (cost : ℚ)
    (entry_date today : ℤ) : Bool × List PStr × List Warn :=
  let errors :=
    (if barber = [] then [pstr "Barber name is required"] else []) ++
    (if customer = [] then [pstr "Customer name is required"] else []) ++
    (if cost ≤ 0 then [pstr "Cost must be greater than $0"] else [])
  let warnings :=
    (if cost > 500 then [Warn.high cost] else []) ++
    (if 0 < cost ∧ cost < 5 then [Warn.low cost] else []) ++
    (if entry_date > today then [Warn.future] else [])
  (errors.isEmpty, errors, warnings)

/-! ### Durable storage: `load_data` and `save_entry_to_disk`

File reads are fallible; a file on disk is modelled by whether it exists
and by the outcome of the two read attempts of `_read_csv_robust`
(plain `pd.read_csv`, and the retry with `on_bad_lines="skip"`). -/

structure FileState where
  present : Bool
  readStrict : Except Unit DF
  readSkip : Except Unit DF

/-- `_read_csv_robust` (source lines 98–104). -/
def read_csv_robust (f : FileState) : Except Unit DF :=
  match f.readStrict with
  | .ok d => .ok d
  | .error _ => f.readSkip

/-- The file system seen by `load_data`: `CSV_FILE` and `BACKUP_FILE`. -/
structure FS where
  shop_data : FileState
  backup : FileState

/-- The empty canonical table `pd.DataFrame(columns=REQUIRED_COLS)`. -/
def empty_canonical : DF := ⟨REQUIRED_COLS, []⟩

/-- `load_data` (source lines 107–125): primary file, reconciled to the
canonical columns; on failure the backup file, returned as parsed; on
total failure the empty canonical table. -/
def load_data (fs : FS) : DF :=
  if fs.shop_data.present then
    match read_csv_robust fs.shop_data with
    | .ok df => reindexRequired (addMissing df)
    | .error _ =>
      if fs.backup.present then
        match read_csv_robust fs.backup with
        | .ok dfb => dfb
        | .error _ => empty_canonical
      else empty_canonical
  else empty_canonical

/-- The durable store and its one-slot backup, as parsed tables; `none`
stands for a missing (or empty) file. -/
structure Disk where
  csv : Option DF
  backupFile : Option DF

/-- `create_backup` (source lines 89–95): copy the store over the backup
slot when the store file exists. -/
def create_backup (d : Disk) : Disk :=
  if d.csv.isSome then { d with backupFile := d.csv } else d

/-- `set(a) == set(b)` on column lists. -/
def sameColSet (a b : List Col) : Bool :=
  a.all (fun c => c ∈ b) && b.all (fun c => c ∈ a)

/-- A CSV line holding `entry`'s values in canonical key order, read back
under the file's `header`: position `i` of the header receives the value
of the `i`-th canonical column. -/
def alignEntry (header : List Col) (entry : Row) : Row := fun c =>
  match header.indexOf? c with
  | some i =>
    match REQUIRED_COLS.get? i with
    | some c' => entry c'
    | none => .na
  | none => .na

/-- `save_entry_to_disk` (source lines 128–151): back up, then — if the
existing header's column set differs from the canonical set — rewrite the
whole file reconciled against the canonical schema, and finally append
the entry row (with a fresh header only when the file was missing or
empty). -/
def save_entry_to_disk (d : Disk) (entry : Row) : Disk :=
  let d' := create_backup d
  match d'.csv with
  | none => { d' with csv := some ⟨REQUIRED_COLS, [entry]⟩ }
  | some df =>
    let df' := if sameColSet df.cols REQUIRED_COLS then df
               else reindexRequired (addMissing df)
    { d' with csv := some ⟨df'.cols, df'.rows ++ [alignEntry df'.cols entry]⟩ }

/-! ### CSV import (View & Manage page, source lines 524–554) -/

/-- The minimum required import columns. -/
def min_cols : List Col := [.Date, .Customer_Name, .Service_Type, .Cost]

/-- `df["ID"] = [generate_unique_id() for _ in range(len(df))]`:
row `k` receives the `k`-th freshly generated identifier. -/
def assignIdsAux (fresh : Nat → PStr) : Nat → List Row → List Row
  | _, [] => []
  | k, r :: rs => setCell r .ID (.str (fresh k)) :: assignIdsAux fresh (k + 1) rs

/-- Column assignment of the generated identifier list. -/
def setColIds (df : DF) (fresh : Nat → PStr) : DF :=
  ⟨if Col.ID ∈ df.cols then df.cols else df.cols ++ [.ID],
   assignIdsAux fresh 0 df.rows⟩

/-- `if c not in df.columns: df[c] = v` — default an optional column. -/
def defaultCol (df : DF) (c : Col) (v : Val) : DF :=
  if c ∈ df.cols then df else setColScalar df c v

/-- The barber-forcing step of the import handler: a barber actor's
display name always overwrites `Barber_Name`; an owner's display name is
used only when the column is absent. -/
def importStep1 (a : Actor) (df : DF) : DF :=
  if a.role = pstr "barber" then
    setColScalar df .Barber_Name (.str a.display_name)
  else if Col.Barber_Name ∈ df.cols then df
  else setColScalar df .Barber_Name (.str a.display_name)

/-- The CSV import handler: required-column check, barber forcing,
defaults for the optional columns, fresh identifiers, canonical
selection. -/
def import_transactions (a : Actor) (df_import : DF)
    (fresh : Nat → PStr) : Except (List Col) DF :=
  let missing := min_cols.filter (fun c => !(c ∈ df_import.cols : Bool))
  if missing.isEmpty then
    .ok (reindexRequired (setColIds
      (defaultCol (defaultCol (defaultCol (importStep1 a df_import)
        .Role (.str (pstr "Employee")))
        .Time (.str (pstr "12:00:00")))
        .Duration_Min (.num 30)) fresh))
  else .error missing

/-! ### Merge Ledgers (source lines 574–646) -/

/-- Columns an uploaded merge file must supply (`Duration_Min` optional). -/
def required_for_import : List Col :=
  REQUIRED_COLS.filter (fun c => c != Col.Duration_Min)

/-- Per-file validation of the merge handler: reject when a required
column is missing, default `Duration_Min`, select canonical columns. -/
def validateFile (df : DF) : Option DF :=
  if required_for_import.all (fun c => c ∈ df.cols) then
    some (reindexRequired (defaultCol df .Duration_Min (.num 30)))
  else none

/-- A frame's row extended to the concatenation's column union: values
of columns absent from the frame become null. -/
def restrictRow (C : List Col) (r : Row) : Row :=
  fun c => if c ∈ C then r c else .na

/-- Column union of `pd.concat`, in order of first appearance. -/
def unionCols (Ls : List (List Col)) : List Col :=
  Ls.foldl (fun acc cs => acc ++ cs.filter (fun c => !(c ∈ acc : Bool))) []

/-- `pd.concat(dfs, ignore_index=True)`. -/
def concatDFs (dfs : List DF) : DF :=
  ⟨unionCols (dfs.map DF.cols),
   (dfs.map (fun d => d.rows.map (restrictRow d.cols))).join⟩

/-- `if "ID" not in merged_df.columns: merged_df["ID"] = pd.NA`. -/
def ensureIdCol (df : DF) : DF :=
  if Col.ID ∈ df.cols then df else setColScalar df .ID .NA

/-- The missing-identifier mask:
`df["ID"].isna() | (df["ID"].astype(str).str.strip() == "")`. -/
def blankId (P : PandasOps) (v : Val) : Bool :=
  isna v || (stripP (valToStr P v) == ([] : PStr))

/-- Assignment of freshly generated identifiers to the masked rows, in
row order: the `k`-th blank row receives the `k`-th generated id. -/
def fillIdsAux (P : PandasOps) (fresh : Nat → PStr) : Nat → List Row → List Row
  | _, [] => []
  | k, r :: rs =>
    if blankId P (r .ID) then
      setCell r .ID (.str (fresh k)) :: fillIdsAux P fresh (k + 1) rs
    else r :: fillIdsAux P fresh k rs

/-- `drop_duplicates(subset=["ID"], keep="first")`, via the set of
identifiers already seen. -/
def dedupByIdAux (seen : List Val) : List Row → List Row
  | [] => []
  | r :: rs =>
    if r .ID ∈ seen then dedupByIdAux seen rs
    else r :: dedupByIdAux (r .ID :: seen) rs

/-- The Merge Files handler: existing store first, then the validated
uploads in order; concatenate, generate missing identifiers, deduplicate
by identifier keeping the first occurrence.  With no valid upload the
session ledger is left unchanged. -/
def mergeFiles (P : PandasOps) (store : DF) (files : List DF)
    (fresh : Nat → PStr) : DF :=
  let dfs := store :: files.filterMap validateFile
  if 1 < dfs.length then
    let merged := ensureIdCol (concatDFs dfs)
    let merged : DF := ⟨merged.cols, fillIdsAux P fresh 0 merged.rows⟩
    ⟨merged.cols, dedupByIdAux [] merged.rows⟩
  else store

/-- First row carrying a given identifier. -/
def findById (rows : List Row) (i : Val) : Option Row :=
  rows.find? (fun r => r .ID == i)

/-- Shape of every row produced by `normalize_ledger`: the facts needed
to show that a second normalization pass is the identity. -/
def NormalizedRow (r : Row) : Prop :=
  (∃ q, r .Cost = .num q) ∧ (∃ d, r .Date = .date d) ∧
  (∃ s, r .Time = .str s) ∧ (∃ s, r .Role = .str s) ∧
  (∃ s, r .Service_Type = .str s) ∧
  (∃ s, r .Barber_Name = .str s ∧ stripP s = s ∧ titleP s = s) ∧
  (∃ s, r .Customer_Name = .str s ∧ stripP s = s ∧ titleP s = s) ∧
  (∃ n : ℤ, r .Duration_Min = .num (n : ℚ))

/-! ## Theorems -/

theorem toNumeric_cases (P : PandasOps) (v : Val) :
    toNumeric P v = .na ∨ ∃ q, toNumeric P v = .num q := by
  cases v with
  | str s => rcases h : P.parseNum s with _ | q <;> simp [toNumeric, h]
  | _ => simp [toNumeric]

theorem toDatetime_cases (P : PandasOps) (v : Val) :
    toDatetime P v = .na ∨ ∃ d, toDatetime P v = .date d := by
  cases v with
  | str s => rcases h : P.parseDate s with _ | d <;> simp [toDatetime, h]
  | _ => simp [toDatetime]

theorem duration_transform_int (P : PandasOps) (v : Val) :
    ∃ n : ℤ, astypeInt (fillna (.num 30) (toNumeric P v)) = .num ((n : ℤ) : ℚ) := by
  rcases toNumeric_cases P v with h | ⟨q, h⟩ <;> rw [h]
  · exact ⟨truncQ 30, rfl⟩
  · exact ⟨truncQ q, rfl⟩

theorem truncQ_intCast (n : ℤ) : truncQ ((n : ℤ) : ℚ) = n := by
  unfold truncQ
  rw [Rat.num_intCast, Rat.den_intCast]
  simp [Int.div_one]

theorem mapCol_id_of (df : DF) (c : Col) (f : Val → Val)
    (h : ∀ r ∈ df.rows, f (r c) = r c) : mapCol df c f = df := by
  cases df with
  | mk cols rows =>
    simp only [mapCol, DF.mk.injEq, true_and]
    conv_rhs => rw [← List.map_id rows]
    apply List.map_congr_left
    intro r hr
    rw [h r hr, setCell_self]
    rfl

theorem dropna_id_of (df : DF) (h : ∀ r ∈ df.rows, keepRow r = true) :
    dropnaDateCost df = df := by
  cases df with
  | mk cols rows =>
    simp only [dropnaDateCost, DF.mk.injEq, true_and]
    exact List.filter_eq_self.mpr h

theorem reindex_id (df : DF) (h : df.cols = REQUIRED_COLS) :
    reindexRequired df = df := by
  cases df with
  | mk cols rows => simp_all [reindexRequired]

theorem normalize_cols (P : PandasOps) (df : DF) :
    (normalize_ledger P df).cols = REQUIRED_COLS := by
  unfold normalize_ledger
  split <;> rfl

theorem normalize_rows_normalized (P : PandasOps) (df : DF) :
    ∀ r ∈ (normalize_ledger P df).rows, NormalizedRow r := by
  intro r hr
  unfold normalize_ledger at hr
  by_cases hE : isEmptyDF df = true
  · rw [if_pos hE] at hr
    simp at hr
  · rw [if_neg hE] at hr
    simp only [mapCol, dropnaDateCost, reindexRequired] at hr
    rcases List.mem_map.mp hr with ⟨r1, h1, rfl⟩
    rcases List.mem_map.mp h1 with ⟨r2, h2, rfl⟩
    rcases List.mem_map.mp h2 with ⟨r3, h3, rfl⟩
    have hkeep := (List.mem_filter.mp h3).2
    rcases List.mem_map.mp (List.mem_filter.mp h3).1 with ⟨r4, h4, rfl⟩
    rcases List.mem_map.mp h4 with ⟨r5, h5, rfl⟩
    rcases List.mem_map.mp h5 with ⟨r6, h6, rfl⟩
    rcases List.mem_map.mp h6 with ⟨r7, h7, rfl⟩
    rcases List.mem_map.mp h7 with ⟨r8, h8, rfl⟩
    simp only [keepRow, setCell, Bool.and_eq_true, Bool.not_eq_true',
      beq_eq_false_iff_ne, ne_eq] at hkeep
    simp only [reduceCtorEq, if_true, if_false, if_neg, if_pos] at hkeep
    refine ⟨?_, ?_, ?_, ?_, ?_, ?_, ?_, ?_⟩
    · -- Cost
      simp only [setCell, reduceCtorEq, if_false, if_true]
      norm_num
      rcases toNumeric_cases P (r8 .Cost) with h | ⟨q, h⟩
      · exfalso
        have hfalse := hkeep.2
        simp only [setCell] at hfalse
        norm_num at hfalse
        rw [h] at hfalse
        simp [isna] at hfalse
      · exact ⟨_, h⟩
    · -- Date
      simp only [setCell, reduceCtorEq, if_false, if_true]
      norm_num
      rcases toDatetime_cases P (r8 .Date) with h | ⟨d, h⟩
      · exfalso
        have hfalse := hkeep.1
        simp only [setCell] at hfalse
        norm_num at hfalse
        rw [h] at hfalse
        simp [isna] at hfalse
      · exact ⟨_, h⟩
    · -- Time
      simp only [setCell, reduceCtorEq, if_false, if_true]
      norm_num
      exact ⟨_, rfl⟩
    · -- Role
      simp only [setCell, reduceCtorEq, if_false, if_true]
      norm_num
      exact ⟨_, rfl⟩
    · -- Service_Type
      simp only [setCell, reduceCtorEq, if_false, if_true]
      norm_num
      exact ⟨_, rfl⟩
    · -- Barber_Name
      simp only [setCell, reduceCtorEq, if_false, if_true]
      norm_num
      exact ⟨_, rfl, stripP_titleP_stripP _, titleP_titleP _⟩
    · -- Customer_Name
      simp only [setCell, reduceCtorEq, if_false, if_true]
      norm_num
      exact ⟨_, rfl, stripP_titleP_stripP _, titleP_titleP _⟩
    · -- Duration_Min
      simp only [setCell, reduceCtorEq, if_false, if_true]
      norm_num
      exact duration_transform_int P _

theorem normalize_fix (P : PandasOps) (N : DF)
    (hcols : N.cols = REQUIRED_COLS)
    (hrows : ∀ r ∈ N.rows, NormalizedRow r)
    (hne : N.rows ≠ []) : normalize_ledger P N = N := by
  have hE : ¬ isEmptyDF N = true := by
    simp only [isEmptyDF, hcols, Bool.or_eq_true, List.isEmpty_iff]
    rintro (h | h)
    · exact hne h
    · exact absurd h (by simp [REQUIRED_COLS])
  unfold normalize_ledger
  rw [if_neg hE]
  simp only []
  have e1 : reindexRequired (addMissing N) = N := by
    rw [addMissing_of_required N hcols]
    exact reindex_id N hcols
  rw [e1]
  rw [mapCol_id_of N .Cost _ (fun r hr => by
    obtain ⟨⟨q, hq⟩, _⟩ := hrows r hr
    rw [hq]; rfl)]
  rw [mapCol_id_of N .Date _ (fun r hr => by
    obtain ⟨_, ⟨d, hd⟩, _⟩ := hrows r hr
    rw [hd]; rfl)]
  rw [mapCol_id_of N .Time _ (fun r hr => by
    obtain ⟨_, _, ⟨s, hs⟩, _⟩ := hrows r hr
    rw [hs]; rfl)]
  rw [mapCol_id_of N .Role _ (fun r hr => by
    obtain ⟨_, _, _, ⟨s, hs⟩, _⟩ := hrows r hr
    rw [hs]; rfl)]
  rw [mapCol_id_of N .Service_Type _ (fun r hr => by
    obtain ⟨_, _, _, _, ⟨s, hs⟩, _⟩ := hrows r hr
    rw [hs]; rfl)]
  rw [dropna_id_of N (fun r hr => by
    obtain ⟨⟨q, hq⟩, ⟨d, hd⟩, _⟩ := hrows r hr
    simp [keepRow, isna, hq, hd])]
  rw [mapCol_id_of N .Barber_Name _ (fun r hr => by
    obtain ⟨_, _, _, _, _, ⟨s, hs, hs1, hs2⟩, _⟩ := hrows r hr
    rw [hs]
    simp [cleanName, valToStr, hs1, hs2])]
  rw [mapCol_id_of N .Customer_Name _ (fun r hr => by
    obtain ⟨_, _, _, _, _, _, ⟨s, hs, hs1, hs2⟩, _⟩ := hrows r hr
    rw [hs]
    simp [cleanName, valToStr, hs1, hs2])]
  rw [mapCol_id_of N .Duration_Min _ (fun r hr => by
    obtain ⟨_, _, _, _, _, _, _, ⟨n, hn⟩⟩ := hrows r hr
    rw [hn]
    simp [toNumeric, fillna, astypeInt, truncQ_intCast])]

/-- **C2** — The schema normalizer is idempotent: for every input table,
normalizing twice yields the same table as normalizing once. -/
theorem normalize_ledger_idem (P : PandasOps) (df : DF) :
    normalize_ledger P (normalize_ledger P df) = normalize_ledger P df := by
  by_cases hE : isEmptyDF df = true
  · have h1 : normalize_ledger P df = ⟨REQUIRED_COLS, []⟩ := by
      unfold normalize_ledger
      rw [if_pos hE]
    rw [h1]
    unfold normalize_ledger
    rw [if_pos (by simp [isEmptyDF])]
  · rcases hrows : (normalize_ledger P df).rows with _ | ⟨r, rs⟩
    · have hN : normalize_ledger P df = ⟨REQUIRED_COLS, []⟩ := by
        have hc := normalize_cols P df
        cases hdf : normalize_ledger P df with
        | mk cols rows =>
          rw [hdf] at hc hrows
          simp only at hc hrows
          rw [hc, hrows]
      rw [hN]
      unfold normalize_ledger
      rw [if_pos (by simp [isEmptyDF])]
    · exact normalize_fix P _ (normalize_cols P df) (normalize_rows_normalized P df)
        (by rw [hrows]; simp)

/-- **C1** — For every table and actor, both the clean
(`get_user_ledger`) and the raw (`get_user_ledger_raw`) filtered views
compute exactly the spec's visibility filter `visible_rows`: an owner
receives the table unchanged, any other actor exactly the rows whose
`Barber_Name`, whitespace-trimmed and case-folded, equals the actor's
display name — so a non-owner actor never receives another barber's row
through either view. -/
theorem visibility_filter_correct (P : PandasOps) (ledger : DF) (a : Actor) :
    get_user_ledger P ledger a = visible_rows P (get_clean_ledger P ledger) a ∧
    get_user_ledger_raw P ledger a = visible_rows P ledger a := by
  constructor
  · unfold get_user_ledger visible_rows
    by_cases hrole : a.role = pstr "owner"
    · simp [hrole]
    · simp only [hrole, if_false]
      congr 1
      apply List.filter_congr
      intro r hr
      obtain ⟨_, _, _, _, _, ⟨s, hs, hs1, _⟩, _⟩ :=
        normalize_rows_normalized P ledger r hr
      rw [hs]
      simp [valToStr, hs1]
  · rfl

/-- **C6** — `validate_entry` blocks (ok = false, with an error) exactly
when the barber name is empty, the customer name is empty, or the cost is
not positive; it warns exactly when the cost exceeds 500, is strictly
between 0 and 5, or the date is in the future; and on the two concrete
examples it produces exactly the single required-barber error
resp. exactly one high-cost warning. -/
theorem validate_entry_spec (b c : PStr) (cost : ℚ) (d t : ℤ) :
    ((validate_entry b c cost d t).1 = false ↔ (b = [] ∨ c = [] ∨ cost ≤ 0)) ∧
    ((validate_entry b c cost d t).2.1 ≠ [] ↔ (b = [] ∨ c = [] ∨ cost ≤ 0)) ∧
    ((validate_entry b c cost d t).2.2 ≠ [] ↔
      (cost > 500 ∨ (0 < cost ∧ cost < 5) ∨ d > t)) ∧
    validate_entry (pstr "") (pstr "John") 20 t t
      = (false, [pstr "Barber name is required"], []) ∧
    validate_entry (pstr "Dave") (pstr "John") 600 t t
      = (true, [], [Warn.high 600]) := by
  have h0 : pstr "" = [] := rfl
  have hJ : ¬ (pstr "John" = []) := by decide
  have hD : ¬ (pstr "Dave" = []) := by decide
  refine ⟨?_, ?_, ?_, ?_, ?_⟩
  · unfold validate_entry
    split_ifs <;> simp_all
  · unfold validate_entry
    split_ifs <;> simp_all
  · unfold validate_entry
    split_ifs <;> simp_all
  · unfold validate_entry
    rw [if_pos h0, if_neg hJ]
    norm_num
  · unfold validate_entry
    rw [if_neg hD, if_neg hJ]
    norm_num

/-- **C7 (counterexample)** — The claim that *every* branch of the
fallback chain synthesizes missing canonical columns as null is false:
when the primary file fails to parse and the backup parses to a table
having only a `Date` column, `load_data` returns that table as-is,
without the canonical columns. -/
theorem load_data_backup_no_synthesis :
    (load_data ⟨⟨true, .error (), .error ()⟩,
      ⟨true, .ok ⟨[Col.Date], []⟩, .error ()⟩⟩).cols ≠ REQUIRED_COLS ∧
    Col.ID ∉ (load_data ⟨⟨true, .error (), .error ()⟩,
      ⟨true, .ok ⟨[Col.Date], []⟩, .error ()⟩⟩).cols := by
  decide

/-- **C7 (amended)** — `load_data` follows the fallback chain
primary file → backup file → empty canonical table; the *primary* branch
reconciles the parsed table to the canonical columns, synthesizing each
absent canonical column as null in every row; the *backup* branch returns
the backup's parse unchanged; total failure (or a missing primary file)
yields the empty canonical table. -/
theorem load_data_fallback_chain (fs : FS) :
    (fs.shop_data.present = false → load_data fs = empty_canonical) ∧
    (∀ df, read_csv_robust fs.shop_data = .ok df → fs.shop_data.present = true →
      load_data fs = reindexRequired (addMissing df) ∧
      (load_data fs).cols = REQUIRED_COLS ∧
      (∀ c ∈ REQUIRED_COLS, c ∉ df.cols →
        ∀ r ∈ (load_data fs).rows, r c = .NA)) ∧
    (∀ dfb, fs.shop_data.present = true →
      read_csv_robust fs.shop_data = .error () →
      fs.backup.present = true → read_csv_robust fs.backup = .ok dfb →
      load_data fs = dfb) ∧
    (fs.shop_data.present = true → read_csv_robust fs.shop_data = .error () →
      (fs.backup.present = false ∨ read_csv_robust fs.backup = .error ()) →
      load_data fs = empty_canonical) := by
  refine ⟨?_, ?_, ?_, ?_⟩
  · intro hp
    unfold load_data
    rw [if_neg (by simp [hp])]
  · intro df hok hp
    have hload : load_data fs = reindexRequired (addMissing df) := by
      unfold load_data
      rw [if_pos hp, hok]
    refine ⟨hload, ?_, ?_⟩
    · rw [hload]; rfl
    · intro c _ hc r hr
      rw [hload] at hr
      rw [addMissing_spec] at hr
      simp only [reindexRequired, List.mem_map] at hr
      obtain ⟨r0, _, rfl⟩ := hr
      simp [fillFn, hc, mem_REQUIRED_COLS c]
  · intro dfb hp herr hbp hbok
    unfold load_data
    rw [if_pos hp, herr, if_pos hbp, hbok]
  · intro hp herr hfail
    unfold load_data
    rw [if_pos hp, herr]
    rcases hfail with h | h
    · rw [if_neg (by simp [h])]
    · by_cases hbp : fs.backup.present = true
      · rw [if_pos hbp, h]
      · rw [if_neg hbp]

/-- **C7 (witness)** — the amended chain applied to a primary file that
parses to a one-row table having only a `Date` column. -/
theorem load_data_fallback_chain_witness :
    load_data ⟨⟨true, .ok ⟨[Col.Date], [fun _ => Val.num 1]⟩, .error ()⟩,
        ⟨false, .error (), .error ()⟩⟩ =
      reindexRequired (addMissing ⟨[Col.Date], [fun _ => Val.num 1]⟩) ∧
    (load_data ⟨⟨true, .ok ⟨[Col.Date], [fun _ => Val.num 1]⟩, .error ()⟩,
        ⟨false, .error (), .error ()⟩⟩).cols = REQUIRED_COLS := by
  have h := (load_data_fallback_chain
    ⟨⟨true, .ok ⟨[Col.Date], [fun _ => Val.num 1]⟩, .error ()⟩,
     ⟨false, .error (), .error ()⟩⟩).2.1
    ⟨[Col.Date], [fun _ => Val.num 1]⟩ rfl rfl
  exact ⟨h.1, h.2.1⟩

theorem alignEntry_required (entry : Row) :
    alignEntry REQUIRED_COLS entry = entry := by
  funext c
  cases c <;> rfl

theorem create_backup_csv (d : Disk) : (create_backup d).csv = d.csv := by
  unfold create_backup
  split <;> rfl

/-- **C8** — When the durable file's header set differs from the
canonical column set, `save_entry_to_disk` rewrites the whole file
reconciled to the canonical schema — every previously-present value kept,
every missing canonical column filled with null — and only then appends
the new entry row; the resulting file carries the full canonical column
set with all previously-existing rows preserved. -/
theorem save_entry_schema_migration (d : Disk) (df : DF) (entry : Row)
    (h1 : d.csv = some df)
    (h2 : sameColSet df.cols REQUIRED_COLS = false) :
    (save_entry_to_disk d entry).csv =
      some ⟨REQUIRED_COLS, df.rows.map (fillFn df.cols REQUIRED_COLS) ++ [entry]⟩ ∧
    (∀ r : Row, ∀ c ∈ df.cols, fillFn df.cols REQUIRED_COLS r c = r c) ∧
    (∀ r : Row, ∀ c ∈ REQUIRED_COLS, c ∉ df.cols →
      fillFn df.cols REQUIRED_COLS r c = .NA) := by
  refine ⟨?_, ?_, ?_⟩
  · have e : reindexRequired (addMissing df) =
        (⟨REQUIRED_COLS, df.rows.map (fillFn df.cols REQUIRED_COLS)⟩ : DF) := by
      rw [addMissing_spec]
      rfl
    unfold save_entry_to_disk
    simp only []
    rw [create_backup_csv, h1]
    simp only []
    rw [if_neg (by simp [h2]), e]
    simp only []
    rw [alignEntry_required]
  · intro r c hc
    simp [fillFn, hc]
  · intro r c hcr hc
    simp [fillFn, hc, hcr]

/-- **C8 (witness)** — migrating a two-column (`ID`, `Date`) store file
by appending one entry. -/
theorem save_entry_schema_migration_witness :
    (save_entry_to_disk
        ⟨some ⟨[Col.ID, Col.Date], [fun _ => Val.num 7]⟩, none⟩
        (fun _ => Val.str (pstr "e"))).csv =
      some ⟨REQUIRED_COLS,
        (⟨[Col.ID, Col.Date], [fun _ => Val.num 7]⟩ : DF).rows.map
          (fillFn [Col.ID, Col.Date] REQUIRED_COLS) ++
        [fun _ => Val.str (pstr "e")]⟩ :=
  (save_entry_schema_migration
    ⟨some ⟨[Col.ID, Col.Date], [fun _ => Val.num 7]⟩, none⟩
    ⟨[Col.ID, Col.Date], [fun _ => Val.num 7]⟩
    (fun _ => Val.str (pstr "e")) rfl (by decide)).1

theorem defaultCol_rows (df : DF) (c : Col) (v : Val) :
    (defaultCol df c v).rows =
      df.rows.map (fun r => if c ∈ df.cols then r else setCell r c v) := by
  unfold defaultCol
  by_cases h : c ∈ df.cols
  · simp [h]
  · simp [h, setColScalar]

theorem defaultCol_mem_cols (df : DF) (c : Col) (v : Val) (x : Col) :
    x ∈ (defaultCol df c v).cols ↔ x ∈ df.cols ∨ x = c := by
  unfold defaultCol
  by_cases h : c ∈ df.cols
  · simp only [if_pos h]
    constructor
    · exact Or.inl
    · rintro (hx | rfl)
      · exact hx
      · exact h
  · simp [h, setColScalar]

theorem importStep1_rows (a : Actor) (df : DF) :
    (importStep1 a df).rows = df.rows.map (fun r =>
      if a.role = pstr "barber" ∨ Col.Barber_Name ∉ df.cols
      then setCell r .Barber_Name (.str a.display_name) else r) := by
  unfold importStep1
  by_cases h1 : a.role = pstr "barber"
  · simp [h1, setColScalar]
  · by_cases h2 : Col.Barber_Name ∈ df.cols
    · simp [h1, h2]
    · simp [h1, h2, setColScalar]

theorem importStep1_mem_cols (a : Actor) (df : DF) (x : Col)
    (hx : x ≠ Col.Barber_Name) :
    x ∈ (importStep1 a df).cols ↔ x ∈ df.cols := by
  have hmem : ∀ d : DF,
      x ∈ (setColScalar d .Barber_Name (.str a.display_name)).cols ↔ x ∈ d.cols := by
    intro d
    simp only [setColScalar]
    split
    · exact Iff.rfl
    · simp [hx]
  unfold importStep1
  split
  · exact hmem df
  · split
    · exact Iff.rfl
    · exact hmem df

theorem assignIdsAux_length (fresh : Nat → PStr) (k : Nat) (l : List Row) :
    (assignIdsAux fresh k l).length = l.length := by
  induction l generalizing k with
  | nil => rfl
  | cons r rs ih => simp [assignIdsAux, ih]

theorem assignIdsAux_get? (fresh : Nat → PStr) (k : Nat) (l : List Row) (j : Nat) :
    (assignIdsAux fresh k l).get? j =
      (l.get? j).map (fun r => setCell r .ID (.str (fresh (k + j)))) := by
  induction l generalizing k j with
  | nil => simp [assignIdsAux]
  | cons r rs ih =>
    cases j with
    | zero => simp [assignIdsAux]
    | succ j' =>
      simp only [assignIdsAux, List.get?_cons_succ, ih, Nat.add_succ, Nat.succ_add]

theorem cond_setCell_other {c c' : Col} (h : c' ≠ c) (C : Prop) [Decidable C]
    (y : Row) (v : Val) : (if C then y else setCell y c v) c' = y c' := by
  split
  · rfl
  · exact setCell_other h y v

theorem cond_setCell_same {c c' : Col} (h : c' ≠ c) (C : Prop) [Decidable C]
    (y : Row) (v : Val) : (if C then setCell y c v else y) c' = y c' := by
  split
  · exact setCell_other h y v
  · rfl

/-- **C9** — CSV import requires exactly the columns `Date`,
`Customer_Name`, `Service_Type`, `Cost` (otherwise the missing set is
reported); on success the imported table carries the canonical columns,
one output row per input row, where `Time`, `Role` and `Duration_Min`
are defaulted when absent, `Barber_Name` is forced to the importing
actor's display name for a barber actor and defaulted only when absent
otherwise, any supplied `ID` is discarded, and row `j` receives the
`j`-th freshly generated identifier. -/
theorem import_contract (a : Actor) (df : DF) (fresh : Nat → PStr) :
    ((min_cols.filter (fun c => !(c ∈ df.cols : Bool))).isEmpty = true ↔
      ∀ c ∈ min_cols, c ∈ df.cols) ∧
    (¬ (min_cols.filter (fun c => !(c ∈ df.cols : Bool))).isEmpty = true →
      import_transactions a df fresh =
        .error (min_cols.filter (fun c => !(c ∈ df.cols : Bool)))) ∧
    ((min_cols.filter (fun c => !(c ∈ df.cols : Bool))).isEmpty = true →
      ∃ out, import_transactions a df fresh = .ok out ∧
        out.cols = REQUIRED_COLS ∧
        out.rows.length = df.rows.length ∧
        ∀ j r, df.rows.get? j = some r → ∃ r', out.rows.get? j = some r' ∧
          r' .ID = .str (fresh j) ∧
          r' .Barber_Name =
            (if a.role = pstr "barber" ∨ Col.Barber_Name ∉ df.cols
             then .str a.display_name else r .Barber_Name) ∧
          r' .Role = (if Col.Role ∈ df.cols then r .Role
             else .str (pstr "Employee")) ∧
          r' .Time = (if Col.Time ∈ df.cols then r .Time
             else .str (pstr "12:00:00")) ∧
          r' .Duration_Min = (if Col.Duration_Min ∈ df.cols
             then r .Duration_Min else .num 30) ∧
          r' .Date = r .Date ∧ r' .Customer_Name = r .Customer_Name ∧
          r' .Service_Type = r .Service_Type ∧ r' .Cost = r .Cost) := by
  refine ⟨?_, ?_, ?_⟩
  · simp [List.isEmpty_iff, List.filter_eq_nil]
  · intro h
    unfold import_transactions
    rw [if_neg h]
  · intro h
    unfold import_transactions
    rw [if_pos h]
    set X1 := importStep1 a df with hX1
    set X2 := defaultCol X1 .Role (.str (pstr "Employee")) with hX2
    set X3 := defaultCol X2 .Time (.str (pstr "12:00:00")) with hX3
    set X4 := defaultCol X3 .Duration_Min (.num 30) with hX4
    have m2 : Col.Role ∈ X1.cols ↔ Col.Role ∈ df.cols := by
      rw [hX1]
      exact importStep1_mem_cols a df Col.Role (by decide)
    have m3 : Col.Time ∈ X2.cols ↔ Col.Time ∈ df.cols := by
      rw [hX2, defaultCol_mem_cols, hX1]
      simp [importStep1_mem_cols a df Col.Time (by decide)]
    have m4 : Col.Duration_Min ∈ X3.cols ↔ Col.Duration_Min ∈ df.cols := by
      rw [hX3, defaultCol_mem_cols, hX2, defaultCol_mem_cols, hX1]
      simp [importStep1_mem_cols a df Col.Duration_Min (by decide)]
    have l1 : X1.rows.length = df.rows.length := by
      rw [hX1, importStep1_rows]; simp
    have l2 : X2.rows.length = X1.rows.length := by
      rw [hX2, defaultCol_rows]; simp
    have l3 : X3.rows.length = X2.rows.length := by
      rw [hX3, defaultCol_rows]; simp
    have l4 : X4.rows.length = X3.rows.length := by
      rw [hX4, defaultCol_rows]; simp
    refine ⟨reindexRequired (setColIds X4 fresh), rfl, rfl, ?_, ?_⟩
    · simp [reindexRequired, setColIds, assignIdsAux_length, l1, l2, l3, l4]
    · intro j r hj
      have p1 : X1.rows.get? j = some
          (if a.role = pstr "barber" ∨ Col.Barber_Name ∉ df.cols
           then setCell r .Barber_Name (.str a.display_name) else r) := by
        rw [hX1, importStep1_rows, List.get?_map, hj]
        rfl
      have p2 : X2.rows.get? j = some
          (if Col.Role ∈ X1.cols
           then (if a.role = pstr "barber" ∨ Col.Barber_Name ∉ df.cols
             then setCell r .Barber_Name (.str a.display_name) else r)
           else setCell
             (if a.role = pstr "barber" ∨ Col.Barber_Name ∉ df.cols
              then setCell r .Barber_Name (.str a.display_name) else r)
             .Role (.str (pstr "Employee"))) := by
        rw [hX2, defaultCol_rows, List.get?_map, p1]
        rfl
      have p3 : X3.rows.get? j = some
          (if Col.Time ∈ X2.cols
           then (if Col.Role ∈ X1.cols
             then (if a.role = pstr "barber" ∨ Col.Barber_Name ∉ df.cols
               then setCell r .Barber_Name (.str a.display_name) else r)
             else setCell
               (if a.role = pstr "barber" ∨ Col.Barber_Name ∉ df.cols
                then setCell r .Barber_Name (.str a.display_name) else r)
               .Role (.str (pstr "Employee")))
           else setCell
             (if Col.Role ∈ X1.cols
              then (if a.role = pstr "barber" ∨ Col.Barber_Name ∉ df.cols
                then setCell r .Barber_Name (.str a.display_name) else r)
              else setCell
                (if a.role = pstr "barber" ∨ Col.Barber_Name ∉ df.cols
                 then setCell r .Barber_Name (.str a.display_name) else r)
                .Role (.str (pstr "Employee")))
             .Time (.str (pstr "12:00:00"))) := by
        rw [hX3, defaultCol_rows, List.get?_map, p2]
        rfl
      have p4 : X4.rows.get? j = some
          (if Col.Duration_Min ∈ X3.cols
           then (if Col.Time ∈ X2.cols
             then (if Col.Role ∈ X1.cols
               then (if a.role = pstr "barber" ∨ Col.Barber_Name ∉ df.cols
                 then setCell r .Barber_Name (.str a.display_name) else r)
               else setCell
                 (if a.role = pstr "barber" ∨ Col.Barber_Name ∉ df.cols
                  then setCell r .Barber_Name (.str a.display_name) else r)
                 .Role (.str (pstr "Employee")))
             else setCell
               (if Col.Role ∈ X1.cols
                then (if a.role = pstr "barber" ∨ Col.Barber_Name ∉ df.cols
                  then setCell r .Barber_Name (.str a.display_name) else r)
                else setCell
                  (if a.role = pstr "barber" ∨ Col.Barber_Name ∉ df.cols
                   then setCell r .Barber_Name (.str a.display_name) else r)
                  .Role (.str (pstr "Employee")))
               .Time (.str (pstr "12:00:00")))
           else setCell
             (if Col.Time ∈ X2.cols
              then (if Col.Role ∈ X1.cols
                then (if a.role = pstr "barber" ∨ Col.Barber_Name ∉ df.cols
                  then setCell r .Barber_Name (.str a.display_name) else r)
                else setCell
                  (if a.role = pstr "barber" ∨ Col.Barber_Name ∉ df.cols
                   then setCell r .Barber_Name (.str a.display_name) else r)
                  .Role (.str (pstr "Employee")))
              else setCell
                (if Col.Role ∈ X1.cols
                 then (if a.role = pstr "barber" ∨ Col.Barber_Name ∉ df.cols
                   then setCell r .Barber_Name (.str a.display_name) else r)
                 else setCell
                   (if a.role = pstr "barber" ∨ Col.Barber_Name ∉ df.cols
                    then setCell r .Barber_Name (.str a.display_name) else r)
                   .Role (.str (pstr "Employee")))
                .Time (.str (pstr "12:00:00")))
             .Duration_Min (.num 30)) := by
        rw [hX4, defaultCol_rows, List.get?_map, p3]
        rfl
      have pOut : (reindexRequired (setColIds X4 fresh)).rows.get? j =
          (X4.rows.get? j).map (fun r => setCell r .ID (.str (fresh j))) := by
        simp only [reindexRequired, setColIds]
        rw [assignIdsAux_get?, Nat.zero_add]
      rw [p4] at pOut
      simp only [Option.map_some'] at pOut
      refine ⟨_, pOut, ?_, ?_, ?_, ?_, ?_, ?_, ?_, ?_, ?_⟩
      · exact setCell_same _ _ _
      · rw [setCell_other (by decide : Col.Barber_Name ≠ Col.ID),
          cond_setCell_other (by decide : Col.Barber_Name ≠ Col.Duration_Min),
          cond_setCell_other (by decide : Col.Barber_Name ≠ Col.Time),
          cond_setCell_other (by decide : Col.Barber_Name ≠ Col.Role)]
        by_cases hC1 : a.role = pstr "barber" ∨ Col.Barber_Name ∉ df.cols
        · rw [if_pos hC1, if_pos hC1, setCell_same]
        · rw [if_neg hC1, if_neg hC1]
      · rw [setCell_other (by decide : Col.Role ≠ Col.ID),
          cond_setCell_other (by decide : Col.Role ≠ Col.Duration_Min),
          cond_setCell_other (by decide : Col.Role ≠ Col.Time)]
        by_cases hR : Col.Role ∈ df.cols
        · rw [if_pos (m2.mpr hR), if_pos hR,
            cond_setCell_same (by decide : Col.Role ≠ Col.Barber_Name)]
        · rw [if_neg (fun hc => hR (m2.mp hc)), if_neg hR, setCell_same]
      · rw [setCell_other (by decide : Col.Time ≠ Col.ID),
          cond_setCell_other (by decide : Col.Time ≠ Col.Duration_Min)]
        by_cases hT : Col.Time ∈ df.cols
        · rw [if_pos (m3.mpr hT), if_pos hT,
            cond_setCell_other (by decide : Col.Time ≠ Col.Role),
            cond_setCell_same (by decide : Col.Time ≠ Col.Barber_Name)]
        · rw [if_neg (fun hc => hT (m3.mp hc)), if_neg hT, setCell_same]
      · rw [setCell_other (by decide : Col.Duration_Min ≠ Col.ID)]
        by_cases hD : Col.Duration_Min ∈ df.cols
        · rw [if_pos (m4.mpr hD), if_pos hD,
            cond_setCell_other (by decide : Col.Duration_Min ≠ Col.Time),
            cond_setCell_other (by decide : Col.Duration_Min ≠ Col.Role),
            cond_setCell_same (by decide : Col.Duration_Min ≠ Col.Barber_Name)]
        · rw [if_neg (fun hc => hD (m4.mp hc)), if_neg hD, setCell_same]
      · rw [setCell_other (by decide : Col.Date ≠ Col.ID),
          cond_setCell_other (by decide : Col.Date ≠ Col.Duration_Min),
          cond_setCell_other (by decide : Col.Date ≠ Col.Time),
          cond_setCell_other (by decide : Col.Date ≠ Col.Role),
          cond_setCell_same (by decide : Col.Date ≠ Col.Barber_Name)]
      · rw [setCell_other (by decide : Col.Customer_Name ≠ Col.ID),
          cond_setCell_other (by decide : Col.Customer_Name ≠ Col.Duration_Min),
          cond_setCell_other (by decide : Col.Customer_Name ≠ Col.Time),
          cond_setCell_other (by decide : Col.Customer_Name ≠ Col.Role),
          cond_setCell_same (by decide : Col.Customer_Name ≠ Col.Barber_Name)]
      · rw [setCell_other (by decide : Col.Service_Type ≠ Col.ID),
          cond_setCell_other (by decide : Col.Service_Type ≠ Col.Duration_Min),
          cond_setCell_other (by decide : Col.Service_Type ≠ Col.Time),
          cond_setCell_other (by decide : Col.Service_Type ≠ Col.Role),
          cond_setCell_same (by decide : Col.Service_Type ≠ Col.Barber_Name)]
      · rw [setCell_other (by decide : Col.Cost ≠ Col.ID),
          cond_setCell_other (by decide : Col.Cost ≠ Col.Duration_Min),
          cond_setCell_other (by decide : Col.Cost ≠ Col.Time),
          cond_setCell_other (by decide : Col.Cost ≠ Col.Role),
          cond_setCell_same (by decide : Col.Cost ≠ Col.Barber_Name)]

/-- **C9 (witness)** — a barber's import of a table carrying exactly the
four required columns succeeds, and an import missing all required
columns reports them. -/
theorem import_contract_witness :
    (import_transactions ⟨pstr "barber", pstr "Dave"⟩
      ⟨min_cols, [fun _ => Val.num 3]⟩ (fun _ => pstr "x")).isOk = true ∧
    import_transactions ⟨pstr "barber", pstr "Dave"⟩
      ⟨[], []⟩ (fun _ => pstr "x") = .error min_cols := by
  constructor
  · obtain ⟨out, h1, _⟩ := (import_contract ⟨pstr "barber", pstr "Dave"⟩
      ⟨min_cols, [fun _ => Val.num 3]⟩ (fun _ => pstr "x")).2.2 (by decide)
    rw [h1]
    rfl
  · have h := (import_contract ⟨pstr "barber", pstr "Dave"⟩
      ⟨[], []⟩ (fun _ => pstr "x")).2.1 (by decide)
    rw [h]
    rfl

theorem fillIdsAux_length (P : PandasOps) (fresh : Nat → PStr) (k : Nat)
    (l : List Row) : (fillIdsAux P fresh k l).length = l.length := by
  induction l generalizing k with
  | nil => rfl
  | cons x xs ih =>
    by_cases hx : blankId P (x .ID) = true <;> simp [fillIdsAux, hx, ih]

theorem fillIdsAux_get?_nonblank (P : PandasOps) (fresh : Nat → PStr)
    (l : List Row) (k j : Nat) (r : Row) (hj : l.get? j = some r)
    (hb : blankId P (r .ID) = false) :
    (fillIdsAux P fresh k l).get? j = some r := by
  induction l generalizing k j with
  | nil => simp at hj
  | cons x xs ih =>
    cases j with
    | zero =>
      have hx : x = r := by simpa using hj
      subst hx
      simp [fillIdsAux, hb]
    | succ j' =>
      have hj' : xs.get? j' = some r := by simpa using hj
      by_cases hx : blankId P (x .ID) = true
      · rw [show fillIdsAux P fresh k (x :: xs) =
            setCell x .ID (.str (fresh k)) :: fillIdsAux P fresh (k + 1) xs from
            by simp [fillIdsAux, hx]]
        rw [List.get?_cons_succ]
        exact ih (k + 1) j' hj'
      · rw [show fillIdsAux P fresh k (x :: xs) =
            x :: fillIdsAux P fresh k xs from by simp [fillIdsAux, hx]]
        rw [List.get?_cons_succ]
        exact ih k j' hj'

theorem fillIdsAux_get?_blank (P : PandasOps) (fresh : Nat → PStr)
    (l : List Row) (k j : Nat) (r : Row) (hj : l.get? j = some r)
    (hb : blankId P (r .ID) = true) :
    (fillIdsAux P fresh k l).get? j = some (setCell r .ID (.str (fresh
      (k + ((l.take j).filter (fun x => blankId P (x .ID))).length)))) := by
  induction l generalizing k j with
  | nil => simp at hj
  | cons x xs ih =>
    cases j with
    | zero =>
      have hx : x = r := by simpa using hj
      subst hx
      simp [fillIdsAux, hb]
    | succ j' =>
      have hj' : xs.get? j' = some r := by simpa using hj
      by_cases hx : blankId P (x .ID) = true
      · rw [show fillIdsAux P fresh k (x :: xs) =
            setCell x .ID (.str (fresh k)) :: fillIdsAux P fresh (k + 1) xs from
            by simp [fillIdsAux, hx]]
        rw [List.get?_cons_succ, ih (k + 1) j' hj']
        have he : (k + 1) + ((xs.take j').filter
              (fun x => blankId P (x .ID))).length =
            k + (((x :: xs).take (j' + 1)).filter
              (fun x => blankId P (x .ID))).length := by
          rw [List.take_succ_cons]
          simp only [List.filter_cons, hx, if_true, List.length_cons]
          generalize ((xs.take j').filter (fun x => blankId P (x .ID))).length = L
          omega
        rw [he]
      · rw [show fillIdsAux P fresh k (x :: xs) =
            x :: fillIdsAux P fresh k xs from by simp [fillIdsAux, hx]]
        rw [List.get?_cons_succ, ih k j' hj']
        have he : k + ((xs.take j').filter
              (fun x => blankId P (x .ID))).length =
            k + (((x :: xs).take (j' + 1)).filter
              (fun x => blankId P (x .ID))).length := by
          rw [List.take_succ_cons]
          simp [List.filter_cons, hx]
          try omega
        rw [he]

/-- **C4** — During merge, a row with a non-blank identifier passes the
identifier-generation step unchanged, and the `k`-th row carrying a
missing or blank identifier (null, or empty after string conversion and
trimming) receives exactly the `k`-th freshly generated identifier. -/
theorem merge_fresh_ids (P : PandasOps) (fresh : Nat → PStr) (l : List Row)
    (j : Nat) (r : Row) (hj : l.get? j = some r) :
    (blankId P (r .ID) = false → (fillIdsAux P fresh 0 l).get? j = some r) ∧
    (blankId P (r .ID) = true → (fillIdsAux P fresh 0 l).get? j =
      some (setCell r .ID (.str (fresh
        ((l.take j).filter (fun x => blankId P (x .ID))).length)))) := by
  constructor
  · intro hb
    exact fillIdsAux_get?_nonblank P fresh l 0 j r hj hb
  · intro hb
    have h := fillIdsAux_get?_blank P fresh l 0 j r hj hb
    rwa [Nat.zero_add] at h

/-- **C4 (witness)** — a two-row list whose first row has a blank (null)
identifier and whose second row carries identifier `"x"`. -/
theorem merge_fresh_ids_witness :
    blankId trivialOps ((fun _ => Val.str (pstr "x")) Col.ID) = false ∧
    blankId trivialOps ((fun _ => Val.na) Col.ID) = true ∧
    (fillIdsAux trivialOps (fun k => pstr "f") 0
        [fun _ => Val.na, fun _ => Val.str (pstr "x")]).get? 1 =
      some (fun _ => Val.str (pstr "x")) ∧
    (fillIdsAux trivialOps (fun k => pstr "f") 0
        [fun _ => Val.na, fun _ => Val.str (pstr "x")]).get? 0 =
      some (setCell (fun _ => Val.na) .ID (.str (pstr "f"))) := by
  refine ⟨by decide, by decide, ?_, ?_⟩
  · exact (merge_fresh_ids trivialOps (fun k => pstr "f")
      [fun _ => Val.na, fun _ => Val.str (pstr "x")] 1
      (fun _ => Val.str (pstr "x")) rfl).1 (by decide)
  · exact (merge_fresh_ids trivialOps (fun k => pstr "f")
      [fun _ => Val.na, fun _ => Val.str (pstr "x")] 0
      (fun _ => Val.na) rfl).2 (by decide)

theorem find?_append_some {α : Type} (p : α → Bool) (l1 l2 : List α) (a : α)
    (h : l1.find? p = some a) : (l1 ++ l2).find? p = some a := by
  induction l1 with
  | nil => simp [List.find?] at h
  | cons x xs ih =>
    rw [List.cons_append]
    cases hp : p x
    · simp only [List.find?_cons, hp] at h ⊢
      exact ih h
    · simp only [List.find?_cons, hp] at h ⊢
      exact h

theorem find?_append_none {α : Type} (p : α → Bool) (l1 l2 : List α)
    (h : l1.find? p = none) : (l1 ++ l2).find? p = l2.find? p := by
  induction l1 with
  | nil => rfl
  | cons x xs ih =>
    rw [List.cons_append]
    cases hp : p x
    · simp only [List.find?_cons, hp] at h ⊢
      exact ih h
    · simp only [List.find?_cons, hp] at h
      exact absurd h (by simp)

theorem find?_fillIdsAux (P : PandasOps) (fresh : Nat → PStr) (k : Nat)
    (l : List Row) (i : Val) (hi : blankId P i = false)
    (hfresh : ∀ m, Val.str (fresh m) ≠ i) :
    (fillIdsAux P fresh k l).find? (fun r => r .ID == i) =
      l.find? (fun r => r .ID == i) := by
  induction l generalizing k with
  | nil => rfl
  | cons r rs ih =>
    by_cases hb : blankId P (r .ID) = true
    · have hne : (r .ID == i) = false := by
        rw [beq_eq_false_iff_ne]
        intro hc
        rw [hc, hi] at hb
        exact absurd hb (by simp)
      have hne2 : (setCell r .ID (.str (fresh k)) .ID == i) = false := by
        rw [setCell_same, beq_eq_false_iff_ne]
        exact hfresh k
      rw [show fillIdsAux P fresh k (r :: rs) =
          setCell r .ID (.str (fresh k)) :: fillIdsAux P fresh (k + 1) rs from
          by simp [fillIdsAux, hb]]
      simp only [List.find?_cons, hne, hne2]
      exact ih (k + 1)
    · rw [show fillIdsAux P fresh k (r :: rs) =
          r :: fillIdsAux P fresh k rs from by simp [fillIdsAux, hb]]
      cases hp : (r .ID == i)
      · simp only [List.find?_cons, hp]
        exact ih k
      · simp only [List.find?_cons, hp]

theorem find?_dedupByIdAux (seen : List Val) (l : List Row) (i : Val)
    (hs : i ∉ seen) :
    (dedupByIdAux seen l).find? (fun r => r .ID == i) =
      l.find? (fun r => r .ID == i) := by
  induction l generalizing seen with
  | nil => rfl
  | cons r rs ih =>
    by_cases hmem : r .ID ∈ seen
    · have hne : (r .ID == i) = false := by
        rw [beq_eq_false_iff_ne]
        intro hc
        exact hs (hc ▸ hmem)
      rw [show dedupByIdAux seen (r :: rs) = dedupByIdAux seen rs from
        by simp [dedupByIdAux, hmem]]
      rw [ih seen hs]
      simp only [List.find?_cons, hne]
    · rw [show dedupByIdAux seen (r :: rs) =
          r :: dedupByIdAux (r .ID :: seen) rs from by simp [dedupByIdAux, hmem]]
      cases hp : (r .ID == i)
      · simp only [List.find?_cons, hp]
        apply ih
        intro hc
        rcases List.mem_cons.mp hc with hc | hc
        · rw [beq_eq_false_iff_ne] at hp
          exact hp hc.symm
        · exact hs hc
      · simp only [List.find?_cons, hp]

theorem mem_unionCols_foldl (Ls : List (List Col)) (acc : List Col) (x : Col) :
    (x ∈ Ls.foldl
        (fun acc cs => acc ++ cs.filter (fun c => !(c ∈ acc : Bool))) acc) ↔
      x ∈ acc ∨ ∃ cs ∈ Ls, x ∈ cs := by
  induction Ls generalizing acc with
  | nil => simp
  | cons cs Ls ih =>
    simp only [List.foldl_cons, ih, List.mem_append, List.mem_filter,
      List.mem_cons]
    constructor
    · rintro ((h | ⟨h1, _⟩) | ⟨c, hc, hx⟩)
      · exact Or.inl h
      · exact Or.inr ⟨cs, Or.inl rfl, h1⟩
      · exact Or.inr ⟨c, Or.inr hc, hx⟩
    · rintro (h | ⟨c, hc | hc, hx⟩)
      · exact Or.inl (Or.inl h)
      · subst hc
        by_cases hacc : x ∈ acc
        · exact Or.inl (Or.inl hacc)
        · exact Or.inl (Or.inr ⟨hx, by simp [hacc]⟩)
      · exact Or.inr ⟨c, hc, hx⟩

theorem mem_unionCols (Ls : List (List Col)) (x : Col) :
    x ∈ unionCols Ls ↔ ∃ cs ∈ Ls, x ∈ cs := by
  unfold unionCols
  rw [mem_unionCols_foldl]
  simp

theorem validateFile_cols (df out : DF) (h : validateFile df = some out) :
    out.cols = REQUIRED_COLS := by
  unfold validateFile at h
  split at h
  · injection h with h
    subst h
    rfl
  · exact absurd h (by simp)

/-- The rows of the merged table are exactly the deduplicated,
identifier-filled concatenation: existing store first, then the
validated uploads in order. -/
theorem mergeFiles_rows (P : PandasOps) (store : DF) (files : List DF)
    (fresh : Nat → PStr) (hv : files.filterMap validateFile ≠ []) :
    (mergeFiles P store files fresh).rows =
      dedupByIdAux [] (fillIdsAux P fresh 0
        (store.rows.map (restrictRow store.cols) ++
         ((files.filterMap validateFile).map
           (fun d => d.rows.map (restrictRow d.cols))).join)) := by
  unfold mergeFiles
  rw [if_pos (by
    simp only [List.length_cons]
    have := List.length_pos.mpr hv
    omega)]
  have hID : Col.ID ∈ (concatDFs (store :: files.filterMap validateFile)).cols := by
    rcases hv2 : files.filterMap validateFile with _ | ⟨v, vs⟩
    · exact absurd hv2 hv
    · have hvc : v.cols = REQUIRED_COLS := by
        have hmem : v ∈ files.filterMap validateFile := by rw [hv2]; simp
        rcases List.mem_filterMap.mp hmem with ⟨f, _, hf⟩
        exact validateFile_cols f v hf
      simp only [concatDFs]
      rw [mem_unionCols]
      refine ⟨v.cols, ?_, ?_⟩
      · simp
      · rw [hvc]
        decide
  rw [show ensureIdCol (concatDFs (store :: files.filterMap validateFile)) =
      concatDFs (store :: files.filterMap validateFile) from by
    simp [ensureIdCol, hID]]
  simp [concatDFs]

/-- **C3** — merge concatenates the existing store first and then the
validated uploads in order and deduplicates by identifier keeping the
first occurrence: for every non-blank identifier not produced by the
generator, if the store contains a row with that identifier the first
such (column-adjusted) store row survives; otherwise the surviving row is
the first row with that identifier among the uploaded files in order. -/
theorem merge_dedup_keeps_first (P : PandasOps) (store : DF)
    (files : List DF) (fresh : Nat → PStr) (i : Val)
    (hv : files.filterMap validateFile ≠ [])
    (hi : blankId P i = false)
    (hfresh : ∀ m, Val.str (fresh m) ≠ i) :
    (∀ rA, findById (store.rows.map (restrictRow store.cols)) i = some rA →
      findById (mergeFiles P store files fresh).rows i = some rA) ∧
    (findById (store.rows.map (restrictRow store.cols)) i = none →
      findById (mergeFiles P store files fresh).rows i =
        findById (((files.filterMap validateFile).map
          (fun d => d.rows.map (restrictRow d.cols))).join) i) := by
  have key : findById (mergeFiles P store files fresh).rows i =
      findById (store.rows.map (restrictRow store.cols) ++
        ((files.filterMap validateFile).map
          (fun d => d.rows.map (restrictRow d.cols))).join) i := by
    rw [mergeFiles_rows P store files fresh hv]
    unfold findById
    rw [find?_dedupByIdAux [] _ i (by simp),
      find?_fillIdsAux P fresh 0 _ i hi hfresh]
  constructor
  · intro rA hA
    rw [key]
    exact find?_append_some _ _ _ _ hA
  · intro hA
    rw [key]
    exact find?_append_none _ _ _ hA

/-- **C3 (witness)** — an identifier present in the store survives the
merge with one uploaded file. -/
theorem merge_dedup_keeps_first_witness :
    findById ((⟨REQUIRED_COLS, [fun _ => Val.str (pstr "x")]⟩ : DF).rows.map
      (restrictRow REQUIRED_COLS)) (Val.str (pstr "x")) =
        some (restrictRow REQUIRED_COLS (fun _ => Val.str (pstr "x"))) ∧
    findById (mergeFiles trivialOps
        ⟨REQUIRED_COLS, [fun _ => Val.str (pstr "x")]⟩
        [⟨REQUIRED_COLS, [fun _ => Val.str (pstr "y")]⟩]
        (fun _ => pstr "f")).rows (Val.str (pstr "x")) =
      some (restrictRow REQUIRED_COLS (fun _ => Val.str (pstr "x"))) := by
  constructor
  · decide
  · exact (merge_dedup_keeps_first trivialOps
      ⟨REQUIRED_COLS, [fun _ => Val.str (pstr "x")]⟩
      [⟨REQUIRED_COLS, [fun _ => Val.str (pstr "y")]⟩]
      (fun _ => pstr "f") (Val.str (pstr "x"))
      (by decide) (by decide)
      (fun m => by change Val.str (pstr "f") ≠ Val.str (pstr "x"); decide)).1
      (restrictRow REQUIRED_COLS (fun _ => Val.str (pstr "x"))) (by decide)

theorem restrictRow_required (r : Row) : restrictRow REQUIRED_COLS r = r := by
  funext c
  simp [restrictRow, mem_REQUIRED_COLS c]

theorem map_restrictRow_required (rows : List Row) :
    rows.map (restrictRow REQUIRED_COLS) = rows := by
  conv_rhs => rw [← List.map_id rows]
  apply List.map_congr_left
  intro r _
  rw [restrictRow_required]
  rfl

theorem validateFile_id (f : DF) (h : f.cols = REQUIRED_COLS) :
    validateFile f = some f := by
  unfold validateFile
  rw [if_pos (by rw [h]; decide)]
  rw [show defaultCol f .Duration_Min (.num 30) = f from by
    simp [defaultCol, h, REQUIRED_COLS]]
  rw [reindex_id f h]

theorem filterMap_validateFile_id (files : List DF)
    (h : ∀ f ∈ files, f.cols = REQUIRED_COLS) :
    files.filterMap validateFile = files := by
  induction files with
  | nil => rfl
  | cons f fs ih =>
    rw [List.filterMap_cons, validateFile_id f (h f (by simp))]
    rw [ih (fun g hg => h g (by simp [hg]))]

theorem unionCols_all_required (Ls : List (List Col))
    (h : ∀ cs ∈ Ls, cs = REQUIRED_COLS) :
    unionCols (REQUIRED_COLS :: Ls) = REQUIRED_COLS := by
  unfold unionCols
  rw [List.foldl_cons]
  rw [show ([] : List Col) ++ REQUIRED_COLS.filter (fun c => !(c ∈ ([] : List Col) : Bool)) = REQUIRED_COLS from by decide]
  induction Ls with
  | nil => rfl
  | cons cs Ls ih =>
    rw [List.foldl_cons, h cs (by simp)]
    rw [show REQUIRED_COLS ++ REQUIRED_COLS.filter
        (fun c => !(c ∈ REQUIRED_COLS : Bool)) = REQUIRED_COLS from by decide]
    exact ih (fun cs' hcs' => h cs' (by simp [hcs']))

theorem fillIdsAux_id (P : PandasOps) (fresh : Nat → PStr) (k : Nat)
    (l : List Row) (h : ∀ r ∈ l, blankId P (r .ID) = false) :
    fillIdsAux P fresh k l = l := by
  induction l generalizing k with
  | nil => rfl
  | cons r rs ih =>
    have hb : blankId P (r .ID) = false := h r (by simp)
    simp only [fillIdsAux, hb, Bool.false_eq_true, if_false]
    rw [ih k (fun r' hr' => h r' (by simp [hr']))]

theorem dedupByIdAux_all_seen (seen : List Val) (l : List Row)
    (h : ∀ r ∈ l, r .ID ∈ seen) : dedupByIdAux seen l = [] := by
  induction l generalizing seen with
  | nil => rfl
  | cons r rs ih =>
    simp only [dedupByIdAux, if_pos (h r (by simp))]
    exact ih seen (fun r' hr' => h r' (by simp [hr']))

theorem dedupByIdAux_append_absorb (seen : List Val) (xs ys : List Row)
    (hnd : (xs.map (fun r => r .ID)).Nodup)
    (hdisj : ∀ r ∈ xs, r .ID ∉ seen)
    (hys : ∀ y ∈ ys, y .ID ∈ seen ∨ y .ID ∈ xs.map (fun r => r .ID)) :
    dedupByIdAux seen (xs ++ ys) = xs := by
  induction xs generalizing seen with
  | nil =>
    simp only [List.nil_append]
    apply dedupByIdAux_all_seen
    intro y hy
    rcases hys y hy with h | h
    · exact h
    · simp at h
  | cons x xs' ih =>
    rw [List.cons_append]
    simp only [dedupByIdAux, if_neg (hdisj x (by simp))]
    congr 1
    apply ih
    · exact (List.nodup_cons.mp hnd).2
    · intro r' hr'
      intro hc
      rcases List.mem_cons.mp hc with hc | hc
      · apply (List.nodup_cons.mp hnd).1
        show x .ID ∈ List.map (fun r => r .ID) xs'
        rw [← hc]
        exact List.mem_map_of_mem (fun r => r .ID) hr'
      · exact hdisj r' (by simp [hr']) hc
    · intro y hy
      rcases hys y hy with h | h
      · exact Or.inl (by simp [h])
      · rcases List.mem_map.mp h with ⟨r', hr', hid⟩
        rcases List.mem_cons.mp hr' with hc | hc
        · subst hc
          exact Or.inl (by simp [hid])
        · exact Or.inr (hid ▸ List.mem_map_of_mem (fun r => r .ID) hc)

theorem dedupByIdAux_id (seen : List Val) (l : List Row)
    (hnd : (l.map (fun r => r .ID)).Nodup)
    (hdisj : ∀ r ∈ l, r .ID ∉ seen) :
    dedupByIdAux seen l = l := by
  have h := dedupByIdAux_append_absorb seen l [] hnd hdisj (by simp)
  simpa using h

theorem concatDFs_all_req (X : DF) (files : List DF)
    (hX : X.cols = REQUIRED_COLS)
    (hfiles : ∀ f ∈ files, f.cols = REQUIRED_COLS) :
    concatDFs (X :: files) =
      ⟨REQUIRED_COLS, X.rows ++ (files.map DF.rows).join⟩ := by
  unfold concatDFs
  congr 1
  · rw [List.map_cons, hX]
    apply unionCols_all_required
    intro cs hcs
    rcases List.mem_map.mp hcs with ⟨f, hf, rfl⟩
    exact hfiles f hf
  · rw [List.map_cons]
    rw [hX, map_restrictRow_required]
    rw [show (List.map (fun d => List.map (restrictRow d.cols) d.rows) files)
        = files.map DF.rows from
      List.map_congr_left (fun f hf => by
        rw [hfiles f hf]
        exact map_restrictRow_required f.rows)]
    rfl

/-- Under canonical columns everywhere and distinct non-blank
identifiers, the merged table is exactly the store's rows followed by the
uploads' rows, under the canonical columns. -/
theorem mergeFiles_all_req (P : PandasOps) (store : DF) (files : List DF)
    (fresh : Nat → PStr)
    (hstore : store.cols = REQUIRED_COLS)
    (hfiles : ∀ f ∈ files, f.cols = REQUIRED_COLS)
    (hblank : ∀ r ∈ store.rows ++ (files.map DF.rows).join,
      blankId P (r .ID) = false)
    (hnodup : ((store.rows ++ (files.map DF.rows).join).map
      (fun r => r .ID)).Nodup)
    (hne : files ≠ []) :
    mergeFiles P store files fresh =
      ⟨REQUIRED_COLS, store.rows ++ (files.map DF.rows).join⟩ := by
  unfold mergeFiles
  rw [filterMap_validateFile_id files hfiles]
  rw [if_pos (by
    simp only [List.length_cons]
    have := List.length_pos.mpr hne
    omega)]
  rw [concatDFs_all_req store files hstore hfiles]
  rw [show ensureIdCol
      (⟨REQUIRED_COLS, store.rows ++ (files.map DF.rows).join⟩ : DF) =
      ⟨REQUIRED_COLS, store.rows ++ (files.map DF.rows).join⟩ from by
    unfold ensureIdCol
    rw [if_pos (by show Col.ID ∈ REQUIRED_COLS; decide)]]
  simp only []
  rw [fillIdsAux_id P fresh 0 _ hblank,
    dedupByIdAux_id [] _ hnodup (by simp)]

/-- **C5 (counterexample)** — the merge operation is *not* commutative:
with an empty store and two uploaded files carrying the same identifier
`"x"` with different customer names, merging `[A, B]` and merging
`[B, A]` give different tables (dedup keeps the occurrence from the
earlier source). -/
theorem merge_not_commutative :
    mergeFiles trivialOps ⟨REQUIRED_COLS, []⟩
      [⟨REQUIRED_COLS, [fun c => if c = Col.ID then Val.str (pstr "x")
          else Val.str (pstr "A")]⟩,
       ⟨REQUIRED_COLS, [fun c => if c = Col.ID then Val.str (pstr "x")
          else Val.str (pstr "B")]⟩]
      (fun _ => pstr "f") ≠
    mergeFiles trivialOps ⟨REQUIRED_COLS, []⟩
      [⟨REQUIRED_COLS, [fun c => if c = Col.ID then Val.str (pstr "x")
          else Val.str (pstr "B")]⟩,
       ⟨REQUIRED_COLS, [fun c => if c = Col.ID then Val.str (pstr "x")
          else Val.str (pstr "A")]⟩]
      (fun _ => pstr "f") := by
  decide

/-- **C5 (amended)** — merge is commutative up to row order and
idempotent under deduplication by identifier *when the per-actor inputs
are disjoint*: if the store and every uploaded table carry the canonical
columns and all identifiers across them are non-blank and pairwise
distinct, then merging any permutation of the uploads yields the same
table up to row order, and re-merging the already-merged ledger with the
same uploads changes nothing. -/
theorem merge_perm_and_idem (P : PandasOps) (store : DF)
    (files files' : List DF) (fresh : Nat → PStr)
    (hstore : store.cols = REQUIRED_COLS)
    (hfiles : ∀ f ∈ files, f.cols = REQUIRED_COLS)
    (hperm : files.Perm files')
    (hblank : ∀ r ∈ store.rows ++ (files.map DF.rows).join,
      blankId P (r .ID) = false)
    (hnodup : ((store.rows ++ (files.map DF.rows).join).map
      (fun r => r .ID)).Nodup) :
    (mergeFiles P store files fresh).cols =
      (mergeFiles P store files' fresh).cols ∧
    (mergeFiles P store files fresh).rows.Perm
      (mergeFiles P store files' fresh).rows ∧
    mergeFiles P (mergeFiles P store files fresh) files fresh =
      mergeFiles P store files fresh := by
  have hjoin : ((files.map DF.rows).join).Perm ((files'.map DF.rows).join) :=
    (hperm.map DF.rows).join
  have hrowsperm : (store.rows ++ (files.map DF.rows).join).Perm
      (store.rows ++ (files'.map DF.rows).join) :=
    List.Perm.append_left store.rows hjoin
  have hfiles' : ∀ f ∈ files', f.cols = REQUIRED_COLS :=
    fun f hf => hfiles f (hperm.mem_iff.mpr hf)
  have hblank' : ∀ r ∈ store.rows ++ (files'.map DF.rows).join,
      blankId P (r .ID) = false :=
    fun r hr => hblank r (hrowsperm.mem_iff.mpr hr)
  have hnodup' : ((store.rows ++ (files'.map DF.rows).join).map
      (fun r => r .ID)).Nodup :=
    (hrowsperm.map (fun r => r .ID)).nodup_iff.mp hnodup
  by_cases hne1 : files = []
  · have hne1' : files' = [] := by
      subst hne1
      exact hperm.symm.eq_nil
    subst hne1
    subst hne1'
    exact ⟨rfl, List.Perm.refl _, rfl⟩
  · have hne1' : files' ≠ [] := by
      intro hc
      subst hc
      exact hne1 hperm.eq_nil
    have e1 := mergeFiles_all_req P store files fresh hstore hfiles hblank
      hnodup hne1
    have e2 := mergeFiles_all_req P store files' fresh hstore hfiles' hblank'
      hnodup' hne1'
    refine ⟨?_, ?_, ?_⟩
    · rw [e1, e2]
    · rw [e1, e2]
      exact hrowsperm
    · rw [e1]
      unfold mergeFiles
      rw [filterMap_validateFile_id files hfiles]
      rw [if_pos (by
        simp only [List.length_cons]
        have := List.length_pos.mpr hne1
        omega)]
      simp only []
      rw [concatDFs_all_req
        ⟨REQUIRED_COLS, store.rows ++ (files.map DF.rows).join⟩ files rfl
        hfiles]
      simp only []
      rw [show ensureIdCol (⟨REQUIRED_COLS,
          (store.rows ++ (files.map DF.rows).join) ++
            (files.map DF.rows).join⟩ : DF) =
          ⟨REQUIRED_COLS, (store.rows ++ (files.map DF.rows).join) ++
            (files.map DF.rows).join⟩ from by
        unfold ensureIdCol
        rw [if_pos (by show Col.ID ∈ REQUIRED_COLS; decide)]]
      simp only []
      rw [fillIdsAux_id P fresh 0 _ (by
        intro r hr
        rcases List.mem_append.mp hr with hr | hr
        · exact hblank r hr
        · exact hblank r (List.mem_append.mpr (Or.inr hr)))]
      congr 1
      exact dedupByIdAux_append_absorb [] _ _ hnodup (by simp)
        (fun y hy => Or.inr (List.mem_map_of_mem (fun r => r .ID)
          (List.mem_append.mpr (Or.inr hy))))

/-- **C5 (witness)** — disjoint single-row per-actor files: swapping the
uploads permutes the merged rows, and re-merging changes nothing. -/
theorem merge_perm_and_idem_witness :
    (mergeFiles trivialOps ⟨REQUIRED_COLS, [fun _ => Val.str (pstr "a")]⟩
      [⟨REQUIRED_COLS, [fun _ => Val.str (pstr "b")]⟩,
       ⟨REQUIRED_COLS, [fun _ => Val.str (pstr "c")]⟩]
      (fun _ => pstr "f")).rows.Perm
    (mergeFiles trivialOps ⟨REQUIRED_COLS, [fun _ => Val.str (pstr "a")]⟩
      [⟨REQUIRED_COLS, [fun _ => Val.str (pstr "c")]⟩,
       ⟨REQUIRED_COLS, [fun _ => Val.str (pstr "b")]⟩]
      (fun _ => pstr "f")).rows ∧
    mergeFiles trivialOps
      (mergeFiles trivialOps ⟨REQUIRED_COLS, [fun _ => Val.str (pstr "a")]⟩
        [⟨REQUIRED_COLS, [fun _ => Val.str (pstr "b")]⟩,
         ⟨REQUIRED_COLS, [fun _ => Val.str (pstr "c")]⟩]
        (fun _ => pstr "f"))
      [⟨REQUIRED_COLS, [fun _ => Val.str (pstr "b")]⟩,
       ⟨REQUIRED_COLS, [fun _ => Val.str (pstr "c")]⟩]
      (fun _ => pstr "f") =
    mergeFiles trivialOps ⟨REQUIRED_COLS, [fun _ => Val.str (pstr "a")]⟩
      [⟨REQUIRED_COLS, [fun _ => Val.str (pstr "b")]⟩,
       ⟨REQUIRED_COLS, [fun _ => Val.str (pstr "c")]⟩]
      (fun _ => pstr "f") := by
  have h := merge_perm_and_idem trivialOps
    ⟨REQUIRED_COLS, [fun _ => Val.str (pstr "a")]⟩
    [⟨REQUIRED_COLS, [fun _ => Val.str (pstr "b")]⟩,
     ⟨REQUIRED_COLS, [fun _ => Val.str (pstr "c")]⟩]
    [⟨REQUIRED_COLS, [fun _ => Val.str (pstr "c")]⟩,
     ⟨REQUIRED_COLS, [fun _ => Val.str (pstr "b")]⟩]
    (fun _ => pstr "f") rfl
    (by intro f hf; fin_cases hf <;> rfl)
    (by decide) (by decide) (by decide)
  exact ⟨h.2.1, h.2.2⟩

/-- **C10 (counterexample)** — the claim's literal `"Nan"` is false for
the missing-column case it covers: when the `Barber_Name` column is
absent, the code synthesizes it with `pd.NA`, which `astype(str)`
renders `"<NA>"`, so the title-cased name is `"<Na>"`, not `"Nan"`. -/
theorem normalize_missing_barber_not_nan :
    ((normalize_ledger trivialOps ⟨[Col.ID, Col.Date, Col.Time,
        Col.Customer_Name, Col.Service_Type, Col.Cost, Col.Role,
        Col.Duration_Min],
      [fun c => if c = Col.Date then Val.date 1
        else if c = Col.Cost then Val.num 20
        else Val.str (pstr "j")]⟩).rows.map
      (fun r' => r' .Barber_Name)) = [Val.str (pstr "<Na>")] ∧
    Val.str (pstr "<Na>") ≠ Val.str (pstr "Nan") := by
  decide

/-- **C10 (amended)** — An input row whose `Date` and `Cost` coerce
successfully but whose `Barber_Name` is missing or null is not dropped
by `normalize_ledger` and does not keep an empty name: a null cell in a
*present* column (a float `NaN`) becomes the title-cased string `"Nan"`,
while an *absent* column — synthesized by the code as `pd.NA` — becomes
`"<Na>"`; the same holds for `Customer_Name`.  Through
`get_user_ledger` such a row remains visible to an owner but is
invisible to every actor whose lower-cased display name is neither
`"nan"` nor `"<na>"`. -/
theorem normalize_nan_barber (P : PandasOps) (df : DF) (a : Actor) (r : Row)
    (hd : Col.Date ∈ df.cols) (hc : Col.Cost ∈ df.cols)
    (hr : r ∈ df.rows)
    (hD : toDatetime P (r .Date) ≠ .na)
    (hC : toNumeric P (r .Cost) ≠ .na)
    (hB : Col.Barber_Name ∉ df.cols ∨ r .Barber_Name = .na) :
    ∃ r' ∈ (normalize_ledger P df).rows,
      (Col.Barber_Name ∉ df.cols → r' .Barber_Name = .str (pstr "<Na>")) ∧
      (Col.Barber_Name ∈ df.cols → r' .Barber_Name = .str (pstr "Nan")) ∧
      (Col.Customer_Name ∉ df.cols →
        r' .Customer_Name = .str (pstr "<Na>")) ∧
      (Col.Customer_Name ∈ df.cols → r .Customer_Name = .na →
        r' .Customer_Name = .str (pstr "Nan")) ∧
      (a.role = pstr "owner" → r' ∈ (get_user_ledger P df a).rows) ∧
      (a.role ≠ pstr "owner" → lowerP a.display_name ≠ pstr "nan" →
        lowerP a.display_name ≠ pstr "<na>" →
        r' ∉ (get_user_ledger P df a).rows) := by
  have hE : ¬ isEmptyDF df = true := by
    simp only [isEmptyDF, Bool.or_eq_true, List.isEmpty_iff]
    rintro (h | h)
    · rw [h] at hr
      simp at hr
    · rw [h] at hd
      simp at hd
  have hrows : (normalize_ledger P df).rows =
      (((((((((df.rows.map (fillFn df.cols REQUIRED_COLS)).map
        (fun r0 => setCell r0 .Cost (toNumeric P (r0 .Cost)))).map
        (fun r0 => setCell r0 .Date (toDatetime P (r0 .Date)))).map
        (fun r0 => setCell r0 .Time (astypeStr P (r0 .Time)))).map
        (fun r0 => setCell r0 .Role
          (astypeStr P (fillna (.str (pstr "Employee")) (r0 .Role))))).map
        (fun r0 => setCell r0 .Service_Type
          (astypeStr P (fillna (.str (pstr "Haircut"))
            (r0 .Service_Type))))).filter keepRow).map
        (fun r0 => setCell r0 .Barber_Name (cleanName P (r0 .Barber_Name)))).map
        (fun r0 => setCell r0 .Customer_Name
          (cleanName P (r0 .Customer_Name)))).map
        (fun r0 => setCell r0 .Duration_Min
          (astypeInt (fillna (.num 30) (toNumeric P (r0 .Duration_Min))))) := by
    unfold normalize_ledger
    rw [if_neg hE]
    simp only [mapCol, dropnaDateCost, reindexRequired, addMissing_spec]
  have hyD : fillFn df.cols REQUIRED_COLS r .Date = r .Date := by
    simp [fillFn, hd]
  have hyC : fillFn df.cols REQUIRED_COLS r .Cost = r .Cost := by
    simp [fillFn, hc]
  have hyB : fillFn df.cols REQUIRED_COLS r .Barber_Name =
      (if Col.Barber_Name ∈ df.cols then Val.na else Val.NA) := by
    by_cases h : Col.Barber_Name ∈ df.cols
    · rcases hB with hB | hB
      · exact absurd h hB
      · simp [fillFn, h, hB]
    · simp [fillFn, h, mem_REQUIRED_COLS]
  have m0 := List.mem_map_of_mem (fillFn df.cols REQUIRED_COLS) hr
  have m1 := List.mem_map_of_mem
    (fun r0 => setCell r0 .Cost (toNumeric P (r0 .Cost))) m0
  have m2 := List.mem_map_of_mem
    (fun r0 => setCell r0 .Date (toDatetime P (r0 .Date))) m1
  have m3 := List.mem_map_of_mem
    (fun r0 => setCell r0 .Time (astypeStr P (r0 .Time))) m2
  have m4 := List.mem_map_of_mem
    (fun r0 => setCell r0 .Role
      (astypeStr P (fillna (.str (pstr "Employee")) (r0 .Role)))) m3
  have m5 := List.mem_map_of_mem
    (fun r0 => setCell r0 .Service_Type
      (astypeStr P (fillna (.str (pstr "Haircut")) (r0 .Service_Type)))) m4
  have hkeep : keepRow
      ((fun r0 => setCell r0 .Service_Type
        (astypeStr P (fillna (.str (pstr "Haircut")) (r0 .Service_Type))))
       ((fun r0 => setCell r0 .Role
        (astypeStr P (fillna (.str (pstr "Employee")) (r0 .Role))))
       ((fun r0 => setCell r0 .Time (astypeStr P (r0 .Time)))
       ((fun r0 => setCell r0 .Date (toDatetime P (r0 .Date)))
       ((fun r0 => setCell r0 .Cost (toNumeric P (r0 .Cost)))
        (fillFn df.cols REQUIRED_COLS r)))))) = true := by
    simp only [keepRow, setCell, reduceCtorEq, if_false, if_true]
    norm_num
    constructor
    · rw [hyD]
      rcases toDatetime_cases P (r .Date) with h | ⟨d, h⟩
      · exact absurd h hD
      · rw [h]
        rfl
    · rw [hyC]
      rcases toNumeric_cases P (r .Cost) with h | ⟨q, h⟩
      · exact absurd h hC
      · rw [h]
        rfl
  have m6 := List.mem_filter.mpr ⟨m5, hkeep⟩
  have m7 := List.mem_map_of_mem
    (fun r0 => setCell r0 .Barber_Name (cleanName P (r0 .Barber_Name))) m6
  have m8 := List.mem_map_of_mem
    (fun r0 => setCell r0 .Customer_Name (cleanName P (r0 .Customer_Name))) m7
  have m9 := List.mem_map_of_mem
    (fun r0 => setCell r0 .Duration_Min
      (astypeInt (fillna (.num 30) (toNumeric P (r0 .Duration_Min))))) m8
  rw [← hrows] at m9
  have hbarb : ((fun r0 => setCell r0 .Duration_Min
      (astypeInt (fillna (.num 30) (toNumeric P (r0 .Duration_Min)))))
     ((fun r0 => setCell r0 .Customer_Name (cleanName P (r0 .Customer_Name)))
     ((fun r0 => setCell r0 .Barber_Name (cleanName P (r0 .Barber_Name)))
     ((fun r0 => setCell r0 .Service_Type
        (astypeStr P (fillna (.str (pstr "Haircut")) (r0 .Service_Type))))
     ((fun r0 => setCell r0 .Role
        (astypeStr P (fillna (.str (pstr "Employee")) (r0 .Role))))
     ((fun r0 => setCell r0 .Time (astypeStr P (r0 .Time)))
     ((fun r0 => setCell r0 .Date (toDatetime P (r0 .Date)))
     ((fun r0 => setCell r0 .Cost (toNumeric P (r0 .Cost)))
      (fillFn df.cols REQUIRED_COLS r))))))))) .Barber_Name =
      (if Col.Barber_Name ∈ df.cols then Val.str (pstr "Nan")
       else Val.str (pstr "<Na>")) := by
    simp only [setCell, reduceCtorEq, if_false, if_true]
    norm_num
    rw [hyB]
    by_cases h : Col.Barber_Name ∈ df.cols
    · rw [if_pos h, if_pos h]
      rfl
    · rw [if_neg h, if_neg h]
      rfl
  refine ⟨_, m9, ?_, ?_, ?_, ?_, ?_, ?_⟩
  · intro hnotin
    rw [hbarb, if_neg hnotin]
  · intro hin
    rw [hbarb, if_pos hin]
  · intro hnotin
    simp only [setCell, reduceCtorEq, if_false, if_true]
    norm_num
    rw [show fillFn df.cols REQUIRED_COLS r .Customer_Name = Val.NA from by
      simp [fillFn, hnotin, mem_REQUIRED_COLS]]
    rfl
  · intro hin hnull
    simp only [setCell, reduceCtorEq, if_false, if_true]
    norm_num
    rw [show fillFn df.cols REQUIRED_COLS r .Customer_Name = Val.na from by
      simp [fillFn, hin, hnull]]
    rfl
  · intro hrole
    unfold get_user_ledger
    simp only [hrole, if_true, if_pos]
    exact m9
  · intro hrole hnd1 hnd2 hmem
    unfold get_user_ledger at hmem
    rw [if_neg hrole] at hmem
    have hpred := (List.mem_filter.mp hmem).2
    by_cases h : Col.Barber_Name ∈ df.cols
    · rw [hbarb, if_pos h] at hpred
      simp only [decide_eq_true_eq] at hpred
      apply hnd1
      rw [← hpred]
      rfl
    · rw [hbarb, if_neg h] at hpred
      simp only [decide_eq_true_eq] at hpred
      apply hnd2
      rw [← hpred]
      rfl

/-- **C10 (witness)** — a one-row table whose `Barber_Name` column is
present but null yields a normalized row named `"Nan"`; with the column
absent the name is `"<Na>"`. -/
theorem normalize_nan_barber_witness :
    (normalize_ledger trivialOps ⟨REQUIRED_COLS,
      [fun c => if c = Col.Date then Val.date 1
        else if c = Col.Cost then Val.num 20 else Val.na]⟩).rows.any
      (fun r' => r' .Barber_Name == Val.str (pstr "Nan")) = true := by
  obtain ⟨r', hmem, _, hbarb, _⟩ := normalize_nan_barber trivialOps
    ⟨REQUIRED_COLS, [fun c => if c = Col.Date then Val.date 1
      else if c = Col.Cost then Val.num 20 else Val.na]⟩
    ⟨pstr "owner", pstr "Owner"⟩
    (fun c => if c = Col.Date then Val.date 1
      else if c = Col.Cost then Val.num 20 else Val.na)
    (by decide) (by decide) (by simp)
    (by decide) (by decide) (by decide)
  rw [List.any_eq_true]
  exact ⟨r', hmem, by rw [hbarb (by decide)]; rfl⟩
end ClipperLedger
